import Mathlib

/-!
# u8table: the table renderer `u8tbl::create` (src/table.hh)

A shallow embedding of the renderer and proofs of its layout properties.

* A `std::string` / `std::string_view` is a sequence of bytes: `Str = List UInt8`.
  String literals of the source are taken through the UTF-8 encoder (`lit`),
  the encoding of the source file.
* `int` values (display widths, `cell_lengths`) are `Int`.  Signed overflow is
  undefined behaviour in C++, so the embedding describes the runs in which
  `cell_lengths[i] + 2` stays inside `int`.
* `operator[]` on a `std::vector` is embedded as `xs[i]?`, so every function
  that indexes returns `Option`; an out-of-range access gives `none`.
* The display-width routine `UTF8Converter::width` depends on the C library
  (`mbstowcs`, `wcswidth`), on the installed locale and on the buffer of the
  converter.  `create` is embedded twice.  `create_utf8` carries the converter
  through both passes, as the source does.  `create` takes a width function
  `width : Str → Int` in place of `utf8.width`; by `create_utf8_eq_create` the
  two agree in the runs in which `utf8.width` gives the same width for the same
  text whatever its buffer holds; for a text that is not well-formed it need
  not.
* `create` is embedded as compiled by src/table.cc, where the preprocessor
  symbol `TABLE_FORMAT_FROM_ENV` is not defined; `type_from_env` is embedded
  on its own, over the value of the environment variable.
* `UTF8Converter::width` itself is embedded over the C library functions it
  calls (`CLib`) and with the conversion buffer as state.
* `split_line` (src/table.cc) is embedded with a bound on the iterations of
  its loop; with an empty delimiter the loop of the source does not end.
-/

namespace u8tbl

/-- Byte strings: the values of `std::string` and `std::string_view`. -/
abbrev Str := List UInt8

/-- Bytes of a string literal of the (UTF-8 encoded) source file. -/
def lit (s : String) : Str := s.toList.flatMap String.utf8EncodeChar

/-- The enumeration `TableType` (table.hh, lines 9-61). -/
inductive TableType where
  | ASCII
  | UNICODE
  | FANCY
  | NONE
  | TSV
  | CSV
  deriving DecidableEq, Repr

/-- The integer value of an enumerator, as used by `(int)type`. -/
def TableType.toNat : TableType → Nat
  | .ASCII => 0
  | .UNICODE => 1
  | .FANCY => 2
  | .NONE => 3
  | .TSV => 4
  | .CSV => 5

/-- The record `_impl::TableFormat` (table.hh, lines 78-102); the fields are in
the order of the C++ declaration, which is the order of aggregate initialisation. -/
structure TableFormat where
  TOP_LEFT : Str
  TOP_HORIZONTAL : Str
  TOP_MIDDLE : Str
  TOP_RIGHT : Str
  LEFT_MIDDLE : Str
  LEFT_VERTICAL : Str
  MIDDLE_VERTICAL : Str
  MIDDLE_HORIZONTAL : Str
  MIDDLE_MIDDLE : Str
  RIGHT_MIDDLE : Str
  RIGHT_VERTICAL : Str
  BOTTOM_LEFT : Str
  BOTTOM_HORIZONTAL : Str
  BOTTOM_MIDDLE : Str
  BOTTOM_RIGHT : Str
  NEWLINE : Str
  PADDING : Str
  deriving DecidableEq, Repr

/-- The constant `ascii_format` (table.hh, lines 104-127). -/
def ascii_format : TableFormat :=
  TableFormat.mk
    (lit "+")    -- TOP_LEFT
    (lit "-")    -- TOP_HORIZONTAL
    (lit "+")    -- TOP_MIDDLE
    (lit "+")    -- TOP_RIGHT
    (lit "+")    -- LEFT_MIDDLE
    (lit "|")    -- LEFT_VERTICAL
    (lit "|")    -- MIDDLE_VERTICAL
    (lit "-")    -- MIDDLE_HORIZONTAL
    (lit "+")    -- MIDDLE_MIDDLE
    (lit "+")    -- RIGHT_MIDDLE
    (lit "|")    -- RIGHT_VERTICAL
    (lit "+")    -- BOTTOM_LEFT
    (lit "-")    -- BOTTOM_HORIZONTAL
    (lit "+")    -- BOTTOM_MIDDLE
    (lit "+")    -- BOTTOM_RIGHT
    (lit "\n")   -- NEWLINE
    (lit " ")    -- PADDING

/-- The constant `unicode_format` (table.hh, lines 129-152). -/
def unicode_format : TableFormat :=
  TableFormat.mk
    (lit "┌")    -- TOP_LEFT
    (lit "─")    -- TOP_HORIZONTAL
    (lit "┬")    -- TOP_MIDDLE
    (lit "┐")    -- TOP_RIGHT
    (lit "├")    -- LEFT_MIDDLE
    (lit "│")    -- LEFT_VERTICAL
    (lit "│")    -- MIDDLE_VERTICAL
    (lit "─")    -- MIDDLE_HORIZONTAL
    (lit "┼")    -- MIDDLE_MIDDLE
    (lit "┤")    -- RIGHT_MIDDLE
    (lit "│")    -- RIGHT_VERTICAL
    (lit "└")    -- BOTTOM_LEFT
    (lit "─")    -- BOTTOM_HORIZONTAL
    (lit "┴")    -- BOTTOM_MIDDLE
    (lit "┘")    -- BOTTOM_RIGHT
    (lit "\n")   -- NEWLINE
    (lit " ")    -- PADDING

/-- The constant `fancy_format` (table.hh, lines 154-177). -/
def fancy_format : TableFormat :=
  TableFormat.mk
    (lit "🮣")    -- TOP_LEFT
    (lit "─")    -- TOP_HORIZONTAL
    (lit "🮦")    -- TOP_MIDDLE
    (lit "🮢")    -- TOP_RIGHT
    (lit "🮥")    -- LEFT_MIDDLE
    (lit "🮤")    -- LEFT_VERTICAL
    (lit "│")    -- MIDDLE_VERTICAL
    (lit "─")    -- MIDDLE_HORIZONTAL
    (lit "┼")    -- MIDDLE_MIDDLE
    (lit "🮤")    -- RIGHT_MIDDLE
    (lit "🮥")    -- RIGHT_VERTICAL
    (lit "🮡")    -- BOTTOM_LEFT
    (lit "─")    -- BOTTOM_HORIZONTAL
    (lit "🮧")    -- BOTTOM_MIDDLE
    (lit "🮠")    -- BOTTOM_RIGHT
    (lit "\n")   -- NEWLINE
    (lit " ")    -- PADDING

/-- The constant `no_format` (table.hh, lines 179-202). -/
def no_format : TableFormat :=
  TableFormat.mk
    (lit "")     -- TOP_LEFT
    (lit "")     -- TOP_HORIZONTAL
    (lit "")     -- TOP_MIDDLE
    (lit "")     -- TOP_RIGHT
    (lit "")     -- LEFT_MIDDLE
    (lit "")     -- LEFT_VERTICAL
    (lit "")     -- MIDDLE_VERTICAL
    (lit "")     -- MIDDLE_HORIZONTAL
    (lit "")     -- MIDDLE_MIDDLE
    (lit "")     -- RIGHT_MIDDLE
    (lit "")     -- RIGHT_VERTICAL
    (lit "")     -- BOTTOM_LEFT
    (lit "")     -- BOTTOM_HORIZONTAL
    (lit "")     -- BOTTOM_MIDDLE
    (lit "")     -- BOTTOM_RIGHT
    (lit "")     -- NEWLINE
    (lit " ")    -- PADDING

/-- The constant `tsv_format` (table.hh, lines 204-227). -/
def tsv_format : TableFormat :=
  TableFormat.mk
    (lit "")     -- TOP_LEFT
    (lit "")     -- TOP_HORIZONTAL
    (lit "")     -- TOP_MIDDLE
    (lit "")     -- TOP_RIGHT
    (lit "")     -- LEFT_MIDDLE
    (lit "")     -- LEFT_VERTICAL
    (lit "\t")   -- MIDDLE_VERTICAL
    (lit "")     -- MIDDLE_HORIZONTAL
    (lit "")     -- MIDDLE_MIDDLE
    (lit "")     -- RIGHT_MIDDLE
    (lit "")     -- RIGHT_VERTICAL
    (lit "")     -- BOTTOM_LEFT
    (lit "")     -- BOTTOM_HORIZONTAL
    (lit "")     -- BOTTOM_MIDDLE
    (lit "")     -- BOTTOM_RIGHT
    (lit "")     -- NEWLINE
    (lit "")     -- PADDING

/-- The constant `csv_format` (table.hh, lines 229-252). -/
def csv_format : TableFormat :=
  TableFormat.mk
    (lit "")     -- TOP_LEFT
    (lit "")     -- TOP_HORIZONTAL
    (lit "")     -- TOP_MIDDLE
    (lit "")     -- TOP_RIGHT
    (lit "")     -- LEFT_MIDDLE
    (lit "")     -- LEFT_VERTICAL
    (lit ",")    -- MIDDLE_VERTICAL
    (lit "")     -- MIDDLE_HORIZONTAL
    (lit "")     -- MIDDLE_MIDDLE
    (lit "")     -- RIGHT_MIDDLE
    (lit "")     -- RIGHT_VERTICAL
    (lit "")     -- BOTTOM_LEFT
    (lit "")     -- BOTTOM_HORIZONTAL
    (lit "")     -- BOTTOM_MIDDLE
    (lit "")     -- BOTTOM_RIGHT
    (lit "")     -- NEWLINE
    (lit "")     -- PADDING

/-- The array `formats[]` (table.hh, lines 254-261). -/
def formats : List TableFormat :=
  [ascii_format, unicode_format, fancy_format, no_format, tsv_format, csv_format]

/-- The call `std::vector<int>::resize(n)`: the first `n` elements are kept and
the vector is extended with value-initialised (zero) elements up to size `n`. -/
def resize (v : List Int) (n : Nat) : List Int :=
  v.take n ++ List.replicate (n - v.length) 0

/-- One iteration of the inner loop of the first pass (table.hh, line 366):
`cell_lengths[i] = std::max(cell_lengths[i], utf8.width(row[i]));` -/
def widthCell (width : Str → Int) (row : List Str) (cell_lengths : List Int) (i : Nat) :
    Option (List Int) := do
  let cell ← row[i]?
  let c ← cell_lengths[i]?
  pure (cell_lengths.set i (max c (width cell)))

/-- The inner loop of the first pass (table.hh, lines 364-367):
`for (size_t i = 0; i < row.size(); i++) { ... }`. -/
def widthRow (width : Str → Int) (row : List Str) (cell_lengths : List Int) :
    Option (List Int) :=
  (List.range row.length).foldlM (widthCell width row) cell_lengths

/-- The first pass of `create` (table.hh, lines 358-368): starting from the empty
vector, every row first resizes `cell_lengths` to
`std::max(cell_lengths.size(), row.size())` and then runs the inner loop. -/
def widthPass (width : Str → Int) (container : List (List Str)) : Option (List Int) :=
  container.foldlM
    (fun cell_lengths row =>
      widthRow width row (resize cell_lengths (max cell_lengths.length row.length)))
    []

/-- The loop `for (int s = 0; s < n; s++) { str += glyph; }`
(table.hh, lines 383-386, 408-411, 436-439, 457-460). -/
def appendTimes (str glyph : Str) (n : Int) : Str :=
  (List.range n.toNat).foldl (fun str _ => str ++ glyph) str

/-- One iteration of the column loop of a border line
(table.hh, lines 378-386, 403-411, 452-460):
`if (i != 0) str += middle;
 for (int s = 0; s < cell_lengths[i] + 2; s++) str += horizontal;` -/
def borderColumn (cell_lengths : List Int) (middle horizontal : Str) (str : Str) (i : Nat) :
    Option Str := do
  let str := if i ≠ 0 then str ++ middle else str
  let c ← cell_lengths[i]?
  pure (appendTimes str horizontal (c + 2))

/-- The column loop of a border line (table.hh, lines 376-387, 401-412, 450-461):
`for (size_t i = 0; i < cell_lengths.size(); i++) { ... }`. -/
def borderColumns (cell_lengths : List Int) (middle horizontal : Str) (str : Str) :
    Option Str :=
  (List.range cell_lengths.length).foldlM (borderColumn cell_lengths middle horizontal) str

/-- The row separator (table.hh, lines 398-415), appended to `str`. -/
def rowSeparator (f : TableFormat) (cell_lengths : List Int) (str : Str) : Option Str := do
  let str := str ++ f.LEFT_MIDDLE
  let str ← borderColumns cell_lengths f.MIDDLE_MIDDLE f.MIDDLE_HORIZONTAL str
  let str := str ++ f.RIGHT_MIDDLE
  pure (str ++ f.NEWLINE)

/-- One iteration of the column loop of a data row (table.hh, lines 424-439). -/
def dataCell (width : Str → Int) (f : TableFormat) (cell_lengths : List Int)
    (row : List Str) (str : Str) (i : Nat) : Option Str := do
  let str := if i ≠ 0 then str ++ f.MIDDLE_VERTICAL else str
  let val : Str := if h : row.length > i then row[i] else []
  let str := str ++ f.PADDING
  let str := str ++ val
  let str := str ++ f.PADDING
  let c ← cell_lengths[i]?
  let w := c - width val
  pure (appendTimes str f.PADDING w)

/-- The data row (table.hh, lines 418-444), appended to `str`; the loop runs up to
`end = std::max(row.size(), cell_lengths.size())`. -/
def dataRow (width : Str → Int) (f : TableFormat) (cell_lengths : List Int)
    (row : List Str) (str : Str) : Option Str := do
  let str := str ++ f.LEFT_VERTICAL
  let stop := max row.length cell_lengths.length
  let str ← (List.range stop).foldlM (dataCell width f cell_lengths row) str
  let str := str ++ f.RIGHT_VERTICAL
  -- Data rows always end in a newline regardless of the table type
  pure (str ++ lit "\n")

/-- One iteration of the row loop (table.hh, lines 394-444): the separator for
every row but the first, then the data row. -/
def emitRow (width : Str → Int) (f : TableFormat) (cell_lengths : List Int)
    (container : List (List Str)) (str : Str) (r : Nat) : Option Str := do
  let row ← container[r]?
  let str ← if r ≠ 0 then rowSeparator f cell_lengths str else pure str
  dataRow width f cell_lengths row str

/-- The function `create` (table.hh, lines 350-467). -/
def create (width : Str → Int) (container : List (List Str)) (type : TableType) :
    Option Str := do
  let cell_lengths ← widthPass width container
  let f ← formats[type.toNat]?
  let str : Str := []
  -- Header
  let str := str ++ f.TOP_LEFT
  let str ← borderColumns cell_lengths f.TOP_MIDDLE f.TOP_HORIZONTAL str
  let str := str ++ f.TOP_RIGHT
  let str := str ++ f.NEWLINE
  let str ← (List.range container.length).foldlM (emitRow width f cell_lengths container) str
  -- Footer
  let str := str ++ f.BOTTOM_LEFT
  let str ← borderColumns cell_lengths f.BOTTOM_MIDDLE f.BOTTOM_HORIZONTAL str
  let str := str ++ f.BOTTOM_RIGHT
  pure (str ++ f.NEWLINE)

/-- The function `type_from_env` (table.hh, lines 264-296), compiled when
`TABLE_FORMAT_FROM_ENV` is defined; `env` is the value of
`getenv("TABLE_FORMAT")`, `none` standing for the null pointer. -/
def type_from_env (env : Option Str) (type : TableType) : TableType :=
  match env with
  | some tt =>
    if tt = lit "ASCII" then TableType.ASCII
    else if tt = lit "UNICODE" then TableType.UNICODE
    else if tt = lit "FANCY" then TableType.FANCY
    else if tt = lit "NONE" then TableType.NONE
    else if tt = lit "TSV" then TableType.TSV
    else if tt = lit "CSV" then TableType.CSV
    else type
  | none => type

/-- The C library as `UTF8Converter::width` calls it, in the locale installed
by the constructor.  Wide characters are their code values. -/
structure CLib where
  /-- The call `mbstowcs(nullptr, s, 0)`: the number of wide characters of `s`,
  `none` standing for the error value `(size_t)-1`. -/
  mbstowcs_count : Str → Option Nat
  /-- The call `mbstowcs(dest, s, n)` with a destination of `n` wide characters:
  the wide characters stored (their number is the value returned), `none`
  standing for the error value `(size_t)-1`. -/
  mbstowcs : Str → Nat → Option (List Nat)
  /-- The call `wcswidth(ws, n)` on the wide characters `ws`. -/
  wcswidth : List Nat → Nat → Int

/-- The class `UTF8Converter` (table.hh, lines 301-347): the locale handle,
`0` standing for `(locale_t)0`, and the conversion buffer. -/
structure UTF8Converter where
  m_loc : Nat
  m_buffer : List Nat

/-- The constructor (table.hh, lines 304-311): `m_loc` is the value returned by
`newlocale`, the buffer is empty. -/
def UTF8Converter.fresh (newlocale : Nat) : UTF8Converter :=
  UTF8Converter.mk newlocale []

/-- The method `valid` (table.hh, lines 340-343). -/
def UTF8Converter.valid (c : UTF8Converter) : Bool :=
  c.m_loc != 0

/-- The call `std::wstring::resize(n)`: the first `n` wide characters are kept and
the string is extended with null wide characters up to size `n`. -/
def wresize (buffer : List Nat) (n : Nat) : List Nat :=
  buffer.take n ++ List.replicate (n - buffer.length) 0

/-- The buffer after `mbstowcs` has stored the wide characters `ws` at its start,
followed by a terminating null when there is room for it. -/
def wstore (buffer ws : List Nat) : List Nat :=
  if ws.length < buffer.length then ws ++ 0 :: buffer.drop (ws.length + 1)
  else ws ++ buffer.drop ws.length

/-- The method `UTF8Converter::width` (table.hh, lines 322-336); the result is
the value returned and the converter with its buffer after the call.  In
`mbstowcs(nullptr, ...) + 1` the error value `(size_t)-1` wraps to `0`. -/
def UTF8Converter.width (lib : CLib) (c : UTF8Converter) (str : Str) : Int × UTF8Converter :=
  if c.valid then
    let needed := match lib.mbstowcs_count str with
      | some k => k + 1
      | none => 0
    let m_buffer := wresize c.m_buffer (max c.m_buffer.length needed)
    match lib.mbstowcs str m_buffer.length with
    | some ws =>
      let m_buffer := wstore m_buffer ws
      (lib.wcswidth m_buffer ws.length, UTF8Converter.mk c.m_loc m_buffer)
    | none => ((str.length : Int), UTF8Converter.mk c.m_loc m_buffer)
  else
    ((str.length : Int), c)

/-- The call `line.find(delim)` of `std::string_view`: the first position at
which `delim` occurs in `line`, `none` standing for `npos`. -/
def find : Str → Str → Option Nat
  | [], delim => if delim.isPrefixOf [] then some 0 else none
  | c :: line, delim =>
    if delim.isPrefixOf (c :: line) then some 0 else (find line delim).map (· + 1)

/-- The loop of `split_line` (table.cc, lines 10-15), run for at most `fuel`
iterations; the state is the rest of the line, the position `pos` and the
vector `rv`.  The result is `none` when the iterations are used up. -/
def split_loop (delim : Str) : Nat → Str → Option Nat → List Str → Option (Str × List Str)
  | _, line, none, rv => some (line, rv)
  | 0, _, some _, _ => none
  | fuel + 1, line, some pos, rv =>
    split_loop delim fuel (line.drop (pos + delim.length))
      (find (line.drop (pos + delim.length)) delim) (rv ++ [line.take pos])

/-- The function `split_line` (table.cc, lines 4-23), its loop run for at most
`fuel` iterations. -/
def split_line (fuel : Nat) (line delim : Str) : Option (List Str) := do
  let (line, rv) ← split_loop delim fuel line (find line delim) []
  pure (if line ≠ [] then rv ++ [line] else rv)

/-- One iteration of the inner loop of the first pass (table.hh, line 366) with
the converter `utf8` as part of the state: `utf8.width(row[i])` returns the
width and leaves the converter with its new buffer. -/
def widthCell_utf8 (lib : CLib) (row : List Str) (st : List Int × UTF8Converter) (i : Nat) :
    Option (List Int × UTF8Converter) := do
  let cell ← row[i]?
  let c ← st.1[i]?
  let r := UTF8Converter.width lib st.2 cell
  pure (st.1.set i (max c r.1), r.2)

/-- The inner loop of the first pass (table.hh, lines 364-367), with the
converter as part of the state. -/
def widthRow_utf8 (lib : CLib) (row : List Str) (st : List Int × UTF8Converter) :
    Option (List Int × UTF8Converter) :=
  (List.range row.length).foldlM (widthCell_utf8 lib row) st

/-- The first pass of `create` (table.hh, lines 358-368), with the converter as
part of the state. -/
def widthPass_utf8 (lib : CLib) (utf8 : UTF8Converter) (container : List (List Str)) :
    Option (List Int × UTF8Converter) :=
  container.foldlM
    (fun st row => widthRow_utf8 lib row (resize st.1 (max st.1.length row.length), st.2))
    ([], utf8)

/-- One iteration of the column loop of a data row (table.hh, lines 424-439),
with the converter as part of the state. -/
def dataCell_utf8 (lib : CLib) (f : TableFormat) (cell_lengths : List Int)
    (row : List Str) (st : Str × UTF8Converter) (i : Nat) : Option (Str × UTF8Converter) := do
  let str := if i ≠ 0 then st.1 ++ f.MIDDLE_VERTICAL else st.1
  let val : Str := if h : row.length > i then row[i] else []
  let str := str ++ f.PADDING
  let str := str ++ val
  let str := str ++ f.PADDING
  let c ← cell_lengths[i]?
  let r := UTF8Converter.width lib st.2 val
  let w := c - r.1
  pure (appendTimes str f.PADDING w, r.2)

/-- The data row (table.hh, lines 418-444), with the converter as part of the
state. -/
def dataRow_utf8 (lib : CLib) (f : TableFormat) (cell_lengths : List Int)
    (row : List Str) (st : Str × UTF8Converter) : Option (Str × UTF8Converter) := do
  let str := st.1 ++ f.LEFT_VERTICAL
  let stop := max row.length cell_lengths.length
  let st ← (List.range stop).foldlM (dataCell_utf8 lib f cell_lengths row) (str, st.2)
  let str := st.1 ++ f.RIGHT_VERTICAL
  -- Data rows always end in a newline regardless of the table type
  pure (str ++ lit "\n", st.2)

/-- One iteration of the row loop (table.hh, lines 394-444), with the converter
as part of the state. -/
def emitRow_utf8 (lib : CLib) (f : TableFormat) (cell_lengths : List Int)
    (container : List (List Str)) (st : Str × UTF8Converter) (r : Nat) :
    Option (Str × UTF8Converter) := do
  let row ← container[r]?
  let str ← if r ≠ 0 then rowSeparator f cell_lengths st.1 else pure st.1
  dataRow_utf8 lib f cell_lengths row (str, st.2)

/-- The function `create` (table.hh, lines 350-467) with its converter: `utf8`
is constructed from the value `newlocale` returns, and every call of
`utf8.width` runs `UTF8Converter::width` on the buffer left by the call
before. -/
def create_utf8 (lib : CLib) (newlocale : Nat) (container : List (List Str))
    (type : TableType) : Option Str := do
  let utf8 := UTF8Converter.fresh newlocale
  let pass ← widthPass_utf8 lib utf8 container
  let cell_lengths := pass.1
  let utf8 := pass.2
  let f ← formats[type.toNat]?
  let str : Str := []
  -- Header
  let str := str ++ f.TOP_LEFT
  let str ← borderColumns cell_lengths f.TOP_MIDDLE f.TOP_HORIZONTAL str
  let str := str ++ f.TOP_RIGHT
  let str := str ++ f.NEWLINE
  let st ← (List.range container.length).foldlM
    (emitRow_utf8 lib f cell_lengths container) (str, utf8)
  let str := st.1
  -- Footer
  let str := str ++ f.BOTTOM_LEFT
  let str ← borderColumns cell_lengths f.BOTTOM_MIDDLE f.BOTTOM_HORIZONTAL str
  let str := str ++ f.BOTTOM_RIGHT
  pure (str ++ f.NEWLINE)

/-! ## Specification-side definitions

Closed forms against which the loops of the source are compared. -/

/-- Text made of `n` copies of `glyph` (none when `n ≤ 0`). -/
def rep (glyph : Str) (n : Int) : Str := (List.replicate n.toNat glyph).flatten

/-- Columns of a border line: for each column a run of `cell_lengths[i] + 2`
copies of `horizontal`, consecutive runs separated by `middle`. -/
def borderRuns (cell_lengths : List Int) (middle horizontal : Str) : Str :=
  List.intercalate middle (cell_lengths.map fun c => rep horizontal (c + 2))

/-- The cell of `row` at column `i`; the empty string when the row is shorter. -/
def cellAt (row : List Str) (i : Nat) : Str := row.getD i []

/-- The segment of a data line for column `i`: padding, the cell, padding, and
`cell_lengths[i] - width(cell)` further copies of the padding. -/
def segment (width : Str → Int) (f : TableFormat) (cell_lengths : List Int)
    (row : List Str) (i : Nat) : Str :=
  f.PADDING ++ cellAt row i ++ f.PADDING ++
    rep f.PADDING (cell_lengths.getD i 0 - width (cellAt row i))

/-- A data line: the segments of all columns between the vertical glyphs,
ended by a line feed. -/
def dataLine (width : Str → Int) (f : TableFormat) (cell_lengths : List Int)
    (row : List Str) : Str :=
  f.LEFT_VERTICAL ++
    List.intercalate f.MIDDLE_VERTICAL
      ((List.range cell_lengths.length).map (segment width f cell_lengths row)) ++
    f.RIGHT_VERTICAL ++ lit "\n"

/-- Number of columns of a grid: the largest row length, `0` for the empty grid. -/
def columnCount (container : List (List Str)) : Nat :=
  (container.map List.length).foldl max 0

/-- Running maximum, started at `0`, of the widths of the cells that the rows of
the grid have at column `i`. -/
def columnWidth (width : Str → Int) (container : List (List Str)) (i : Nat) : Int :=
  (container.filterMap fun row => (row[i]?).map width).foldl max 0

/-- The column-width vector: one running maximum per column. -/
def columnWidths (width : Str → Int) (container : List (List Str)) : List Int :=
  (List.range (columnCount container)).map (columnWidth width container)

/-- The vector after the inner loop has treated the first `k` cells of `row`. -/
def mergeRow (width : Str → Int) (row : List Str) (cell_lengths : List Int) (k : Nat) :
    List Int :=
  (List.range cell_lengths.length).map fun i =>
    if i < k then max (cell_lengths.getD i 0) (width (cellAt row i)) else cell_lengths.getD i 0

/-- The format record selected by a table type. -/
def format : TableType → TableFormat
  | .ASCII => ascii_format
  | .UNICODE => unicode_format
  | .FANCY => fancy_format
  | .NONE => no_format
  | .TSV => tsv_format
  | .CSV => csv_format

/-- A border line: left glyph, the runs of the columns, right glyph, newline glyph. -/
def borderLine (left horizontal middle right newline : Str) (cell_lengths : List Int) : Str :=
  left ++ borderRuns cell_lengths middle horizontal ++ right ++ newline

/-- The header border of a format. -/
def topBorder (f : TableFormat) (cell_lengths : List Int) : Str :=
  borderLine f.TOP_LEFT f.TOP_HORIZONTAL f.TOP_MIDDLE f.TOP_RIGHT f.NEWLINE cell_lengths

/-- The row separator of a format. -/
def separatorLine (f : TableFormat) (cell_lengths : List Int) : Str :=
  borderLine f.LEFT_MIDDLE f.MIDDLE_HORIZONTAL f.MIDDLE_MIDDLE f.RIGHT_MIDDLE f.NEWLINE
    cell_lengths

/-- The footer border of a format. -/
def bottomBorder (f : TableFormat) (cell_lengths : List Int) : Str :=
  borderLine f.BOTTOM_LEFT f.BOTTOM_HORIZONTAL f.BOTTOM_MIDDLE f.BOTTOM_RIGHT f.NEWLINE
    cell_lengths

/-- The rendered table: header border, the data lines of the rows in order with a
row separator between consecutive rows, footer border. -/
def render (width : Str → Int) (container : List (List Str)) (f : TableFormat) : Str :=
  topBorder f (columnWidths width container) ++
    List.intercalate (separatorLine f (columnWidths width container))
      (container.map (dataLine width f (columnWidths width container))) ++
    bottomBorder f (columnWidths width container)


/-- The seventeen glyphs of a format, in the order of the fields. -/
def glyphs (f : TableFormat) : List Str :=
  [f.TOP_LEFT, f.TOP_HORIZONTAL, f.TOP_MIDDLE, f.TOP_RIGHT, f.LEFT_MIDDLE, f.LEFT_VERTICAL,
   f.MIDDLE_VERTICAL, f.MIDDLE_HORIZONTAL, f.MIDDLE_MIDDLE, f.RIGHT_MIDDLE, f.RIGHT_VERTICAL,
   f.BOTTOM_LEFT, f.BOTTOM_HORIZONTAL, f.BOTTOM_MIDDLE, f.BOTTOM_RIGHT, f.NEWLINE, f.PADDING]


/-- Number of code points of a UTF-8 text: the bytes that are not continuation
bytes (a continuation byte has the form `10xxxxxx`, i.e. lies in `0x80 .. 0xBF`). -/
def codePoints (s : Str) : Nat :=
  s.countP fun b => b < 0x80 || 0xC0 ≤ b


/-- The glyph table of the specification (section 6), one record per style; the
entries of a row of the table are read in the order of the field labels of the
row (for ascii the row `top-left/top-mid/top-right/top-horiz` is `+ - + +`). -/
def spec_glyph_table : TableType → TableFormat
  | .ASCII =>
    { TOP_LEFT := lit "+", TOP_MIDDLE := lit "-", TOP_RIGHT := lit "+", TOP_HORIZONTAL := lit "+",
      LEFT_MIDDLE := lit "+", LEFT_VERTICAL := lit "|",
      MIDDLE_VERTICAL := lit "|", MIDDLE_HORIZONTAL := lit "-", MIDDLE_MIDDLE := lit "+",
      RIGHT_MIDDLE := lit "+", RIGHT_VERTICAL := lit "|",
      BOTTOM_LEFT := lit "+", BOTTOM_MIDDLE := lit "+", BOTTOM_RIGHT := lit "+",
      BOTTOM_HORIZONTAL := lit "-",
      NEWLINE := lit "\n", PADDING := lit " " }
  | .UNICODE =>
    { TOP_LEFT := lit "┌", TOP_MIDDLE := lit "┬", TOP_RIGHT := lit "┐", TOP_HORIZONTAL := lit "─",
      LEFT_MIDDLE := lit "├", LEFT_VERTICAL := lit "│",
      MIDDLE_VERTICAL := lit "│", MIDDLE_HORIZONTAL := lit "─", MIDDLE_MIDDLE := lit "┼",
      RIGHT_MIDDLE := lit "┤", RIGHT_VERTICAL := lit "│",
      BOTTOM_LEFT := lit "└", BOTTOM_MIDDLE := lit "┴", BOTTOM_RIGHT := lit "┘",
      BOTTOM_HORIZONTAL := lit "─",
      NEWLINE := lit "\n", PADDING := lit " " }
  | .FANCY =>
    { TOP_LEFT := lit "🮣", TOP_MIDDLE := lit "🮦", TOP_RIGHT := lit "🮢", TOP_HORIZONTAL := lit "─",
      LEFT_MIDDLE := lit "🮥", LEFT_VERTICAL := lit "🮤",
      MIDDLE_VERTICAL := lit "│", MIDDLE_HORIZONTAL := lit "─", MIDDLE_MIDDLE := lit "┼",
      RIGHT_MIDDLE := lit "🮤", RIGHT_VERTICAL := lit "🮥",
      BOTTOM_LEFT := lit "🮡", BOTTOM_MIDDLE := lit "🮧", BOTTOM_RIGHT := lit "🮠",
      BOTTOM_HORIZONTAL := lit "─",
      NEWLINE := lit "\n", PADDING := lit " " }
  | .NONE =>
    { TOP_LEFT := [], TOP_MIDDLE := [], TOP_RIGHT := [], TOP_HORIZONTAL := [],
      LEFT_MIDDLE := [], LEFT_VERTICAL := [],
      MIDDLE_VERTICAL := [], MIDDLE_HORIZONTAL := [], MIDDLE_MIDDLE := [],
      RIGHT_MIDDLE := [], RIGHT_VERTICAL := [],
      BOTTOM_LEFT := [], BOTTOM_MIDDLE := [], BOTTOM_RIGHT := [], BOTTOM_HORIZONTAL := [],
      NEWLINE := [], PADDING := lit " " }
  | .TSV =>
    { TOP_LEFT := [], TOP_MIDDLE := [], TOP_RIGHT := [], TOP_HORIZONTAL := [],
      LEFT_MIDDLE := [], LEFT_VERTICAL := [],
      MIDDLE_VERTICAL := lit "\t", MIDDLE_HORIZONTAL := [], MIDDLE_MIDDLE := [],
      RIGHT_MIDDLE := [], RIGHT_VERTICAL := [],
      BOTTOM_LEFT := [], BOTTOM_MIDDLE := [], BOTTOM_RIGHT := [], BOTTOM_HORIZONTAL := [],
      NEWLINE := [], PADDING := [] }
  | .CSV =>
    { TOP_LEFT := [], TOP_MIDDLE := [], TOP_RIGHT := [], TOP_HORIZONTAL := [],
      LEFT_MIDDLE := [], LEFT_VERTICAL := [],
      MIDDLE_VERTICAL := lit ",", MIDDLE_HORIZONTAL := [], MIDDLE_MIDDLE := [],
      RIGHT_MIDDLE := [], RIGHT_VERTICAL := [],
      BOTTOM_LEFT := [], BOTTOM_MIDDLE := [], BOTTOM_RIGHT := [], BOTTOM_HORIZONTAL := [],
      NEWLINE := [], PADDING := [] }

/-- The glyph table as amended: the table of the specification with, for ascii,
top-mid `+` and top-horiz `-`. -/
def amended_glyph_table : TableType → TableFormat
  | .ASCII =>
    { TOP_LEFT := lit "+", TOP_MIDDLE := lit "+", TOP_RIGHT := lit "+", TOP_HORIZONTAL := lit "-",
      LEFT_MIDDLE := lit "+", LEFT_VERTICAL := lit "|",
      MIDDLE_VERTICAL := lit "|", MIDDLE_HORIZONTAL := lit "-", MIDDLE_MIDDLE := lit "+",
      RIGHT_MIDDLE := lit "+", RIGHT_VERTICAL := lit "|",
      BOTTOM_LEFT := lit "+", BOTTOM_MIDDLE := lit "+", BOTTOM_RIGHT := lit "+",
      BOTTOM_HORIZONTAL := lit "-",
      NEWLINE := lit "\n", PADDING := lit " " }
  | type => spec_glyph_table type

/-- A C library for texts of 7-bit characters without a null byte: every byte
below 128 is one wide character, any other byte is an invalid sequence;
`mbstowcs` with a destination stops as soon as `n` wide characters are stored,
before it looks at the next byte; `wcswidth` is `-1` when one of the `n` wide
characters is a control character and counts one column per character
otherwise. -/
def sevenBitLib : CLib where
  mbstowcs_count s := if s.all (· < 128) then some s.length else none
  mbstowcs s n :=
    if n ≤ (s.takeWhile (· < 128)).length then
      some (((s.takeWhile (· < 128)).take n).map UInt8.toNat)
    else if (s.takeWhile (· < 128)).length = s.length then some (s.map UInt8.toNat)
    else none
  wcswidth ws n := if (ws.take n).all (fun c => 32 ≤ c && c < 127) then (n : Int) else -1

/-- The lines of a text that are ended by a line feed, without the line feeds;
`cur` holds the bytes of the current line in reverse order. -/
def terminatedLinesFrom : Str → Str → List Str
  | [], _ => []
  | c :: rest, cur =>
    if c = 10 then cur.reverse :: terminatedLinesFrom rest []
    else terminatedLinesFrom rest (c :: cur)

/-- The lines of a text that are ended by a line feed. -/
def terminatedLines (text : Str) : List Str :=
  terminatedLinesFrom text []

/-! ## Lemmas: the loops compute the closed forms -/

/-- Invariant rule for a counting loop in the `Option` monad: an invariant that
holds initially and is carried by every iteration below the bound holds of the
final state, and the loop does not fail. -/
theorem foldlM_range_invariant {σ : Type} (body : σ → Nat → Option σ) (P : Nat → σ → Prop)
    (n : Nat) (init : σ) (h0 : P 0 init)
    (hstep : ∀ k s, k < n → P k s → ∃ s', body s k = some s' ∧ P (k + 1) s') :
    ∃ s, (List.range n).foldlM body init = some s ∧ P n s := by
  induction n with
  | zero => exact ⟨init, by simp, h0⟩
  | succ n ih =>
    obtain ⟨s, hs, hP⟩ := ih (fun k s hk hp => hstep k s (Nat.lt_succ_of_lt hk) hp)
    obtain ⟨s', hs', hP'⟩ := hstep n s (Nat.lt_succ_self n) hP
    refine ⟨s', ?_, hP'⟩
    rw [List.range_succ, List.foldlM_append, hs]
    simp [hs']

/-- Functional form of the invariant rule: when iteration `k` maps `F k` to
`F (k + 1)`, the loop started in `F 0` ends in `F n`. -/
theorem foldlM_range_eq {σ : Type} (body : σ → Nat → Option σ) (F : Nat → σ) (n : Nat)
    (init : σ) (h0 : F 0 = init)
    (hstep : ∀ k, k < n → body (F k) k = some (F (k + 1))) :
    (List.range n).foldlM body init = some (F n) := by
  obtain ⟨s, hs, hP⟩ := foldlM_range_invariant body (fun k s => s = F k) n init h0.symm
    (fun k s hk hp => ⟨F (k + 1), by rw [hp]; exact hstep k hk, rfl⟩)
  rw [hs, hP]

theorem appendTimes_eq (str glyph : Str) (n : Int) :
    appendTimes str glyph n = str ++ rep glyph n := by
  unfold appendTimes rep
  induction n.toNat with
  | zero => simp
  | succ m ih =>
    rw [List.range_succ, List.foldl_append, ih, List.replicate_succ']
    simp

theorem intercalate_nil {α : Type} (sep : List α) : List.intercalate sep [] = [] := by
  simp [List.intercalate]

theorem intercalate_concat {α : Type} (sep : List α) (l : List (List α)) (x : List α) :
    List.intercalate sep (l ++ [x]) =
      if l.isEmpty then x else List.intercalate sep l ++ sep ++ x := by
  induction l with
  | nil => simp [List.intercalate]
  | cons a l ih =>
    cases l with
    | nil => simp [List.intercalate]
    | cons b l =>
      simp only [List.intercalate] at ih ⊢
      simp at ih
      simp [ih]

theorem borderColumns_eq (cell_lengths : List Int) (middle horizontal str : Str) :
    borderColumns cell_lengths middle horizontal str =
      some (str ++ borderRuns cell_lengths middle horizontal) := by
  unfold borderColumns
  rw [foldlM_range_eq (borderColumn cell_lengths middle horizontal)
    (fun k => str ++ borderRuns (cell_lengths.take k) middle horizontal)
    cell_lengths.length str (by simp [borderRuns, intercalate_nil])]
  · simp
  · intro k hk
    have hget : cell_lengths[k]? = some cell_lengths[k] := List.getElem?_eq_getElem hk
    simp only [borderColumn, hget, List.take_succ, borderRuns, List.map_append, Option.toList,
      List.map_cons, List.map_nil, intercalate_concat, appendTimes_eq]
    cases k with
    | zero => simp [intercalate_nil]
    | succ k =>
      have hne : cell_lengths ≠ [] := by
        intro h
        simp [h] at hk
      simp [hne]

theorem dataCell_val (row : List Str) (k : Nat) :
    (if h : row.length > k then row[k] else []) = cellAt row k := by
  unfold cellAt
  by_cases h : k < row.length
  · simp [h, List.getD_eq_getElem?_getD]
  · simp [h, List.getD_eq_getElem?_getD]
    rw [List.getElem?_eq_none (by omega)]
    rfl

theorem dataRow_eq (width : Str → Int) (f : TableFormat) (cell_lengths : List Int)
    (row : List Str) (str : Str) (hlen : row.length ≤ cell_lengths.length) :
    dataRow width f cell_lengths row str =
      some (str ++ dataLine width f cell_lengths row) := by
  unfold dataRow
  simp only [Nat.max_eq_right hlen]
  rw [foldlM_range_eq (dataCell width f cell_lengths row)
    (fun k => str ++ f.LEFT_VERTICAL ++
      List.intercalate f.MIDDLE_VERTICAL
        ((List.range k).map (segment width f cell_lengths row)))
    cell_lengths.length (str ++ f.LEFT_VERTICAL) (by simp [intercalate_nil])]
  · simp [dataLine]
  · intro k hk
    have hget : cell_lengths[k]? = some cell_lengths[k] := List.getElem?_eq_getElem hk
    have hc : cell_lengths.getD k 0 = cell_lengths[k] := by
      simp [List.getD_eq_getElem?_getD, hget]
    simp only [dataCell, hget, dataCell_val, List.range_succ, List.map_append, List.map_cons,
      List.map_nil, intercalate_concat, appendTimes_eq, segment, hc]
    cases k with
    | zero => simp [intercalate_nil]
    | succ k => simp [List.range_succ]

theorem rowSeparator_eq (f : TableFormat) (cell_lengths : List Int) (str : Str) :
    rowSeparator f cell_lengths str =
      some (str ++ (f.LEFT_MIDDLE ++ borderRuns cell_lengths f.MIDDLE_MIDDLE f.MIDDLE_HORIZONTAL
        ++ f.RIGHT_MIDDLE ++ f.NEWLINE)) := by
  simp [rowSeparator, borderColumns_eq]

theorem columnCount_concat (l : List (List Str)) (row : List Str) :
    columnCount (l ++ [row]) = max (columnCount l) row.length := by
  simp [columnCount, List.foldl_append]

theorem columnWidth_concat (width : Str → Int) (l : List (List Str)) (row : List Str)
    (i : Nat) :
    columnWidth width (l ++ [row]) i =
      if i < row.length then max (columnWidth width l i) (width (cellAt row i))
      else columnWidth width l i := by
  unfold columnWidth cellAt
  rw [List.filterMap_append, List.foldl_append]
  by_cases h : i < row.length
  · simp [h, List.getD_eq_getElem?_getD, List.getElem?_eq_getElem h]
  · simp [h, List.getElem?_eq_none (Nat.le_of_not_lt h)]

theorem length_le_foldl_max (xs : List Nat) (a : Nat) :
    a ≤ xs.foldl max a ∧ ∀ x ∈ xs, x ≤ xs.foldl max a := by
  induction xs generalizing a with
  | nil => simp
  | cons y ys ih =>
    simp only [List.foldl_cons, List.mem_cons]
    refine ⟨le_trans (le_max_left a y) (ih _).1, ?_⟩
    intro x hx
    rcases hx with rfl | hx
    · exact le_trans (le_max_right a x) (ih _).1
    · exact (ih _).2 x hx

theorem length_le_columnCount (container : List (List Str)) (row : List Str)
    (h : row ∈ container) : row.length ≤ columnCount container :=
  (length_le_foldl_max (container.map List.length) 0).2 row.length
    (List.mem_map_of_mem List.length h)

theorem columnWidth_eq_zero (width : Str → Int) (container : List (List Str)) (i : Nat)
    (h : columnCount container ≤ i) : columnWidth width container i = 0 := by
  unfold columnWidth
  have : (container.filterMap fun row => (row[i]?).map width) = [] := by
    rw [List.filterMap_eq_nil_iff]
    intro row hrow
    have := length_le_columnCount container row hrow
    simp [List.getElem?_eq_none (le_trans this h)]
  rw [this]
  rfl

theorem length_columnWidths (width : Str → Int) (container : List (List Str)) :
    (columnWidths width container).length = columnCount container := by
  simp [columnWidths]

theorem getD_columnWidths (width : Str → Int) (container : List (List Str)) (i : Nat) :
    (columnWidths width container).getD i 0 = columnWidth width container i := by
  by_cases h : i < columnCount container
  · simp [columnWidths, List.getD_eq_getElem?_getD, List.getElem?_eq_getElem, h]
  · rw [columnWidth_eq_zero width container i (Nat.le_of_not_lt h)]
    simp [List.getD_eq_getElem?_getD, List.getElem?_eq_none, length_columnWidths,
      Nat.le_of_not_lt h]

theorem length_resize (v : List Int) (n : Nat) : (resize v n).length = n := by
  simp [resize]
  omega

theorem getD_resize (v : List Int) (n i : Nat) (h : v.length ≤ n) :
    (resize v n).getD i 0 = v.getD i 0 := by
  unfold resize
  rw [List.take_of_length_le h]
  simp only [List.getD_eq_getElem?_getD]
  by_cases hi : i < v.length
  · rw [List.getElem?_append_left hi]
  · rw [List.getElem?_append_right (Nat.le_of_not_lt hi),
      List.getElem?_eq_none (Nat.le_of_not_lt hi)]
    by_cases h2 : i - v.length < n - v.length
    · simp [List.getElem?_replicate, h2]
    · simp [List.getElem?_replicate, h2]

theorem widthRow_eq (width : Str → Int) (row : List Str) (cell_lengths : List Int)
    (hlen : row.length ≤ cell_lengths.length) :
    widthRow width row cell_lengths = some (mergeRow width row cell_lengths row.length) := by
  unfold widthRow
  apply foldlM_range_eq (widthCell width row) (mergeRow width row cell_lengths)
  · apply List.ext_getElem
    · simp [mergeRow]
    · intro i h1 h2
      simp [mergeRow, List.getD_eq_getElem?_getD, List.getElem?_eq_getElem h2]
  · intro k hk
    have hk2 : k < cell_lengths.length := lt_of_lt_of_le hk hlen
    have hrow : row[k]? = some row[k] := List.getElem?_eq_getElem hk
    have hcell : cellAt row k = row[k] := by
      simp [cellAt, List.getD_eq_getElem?_getD, hrow]
    have hcur : (mergeRow width row cell_lengths k)[k]? = some cell_lengths[k] := by
      simp [mergeRow, List.getElem?_eq_getElem, hk2, List.getD_eq_getElem?_getD]
    simp only [widthCell, hrow, hcur, Option.bind_eq_bind, Option.some_bind, Option.pure_def,
      Option.some.injEq]
    apply List.ext_getElem
    · simp [mergeRow]
    · intro i h1 h2
      have hi : i < cell_lengths.length := by simpa [mergeRow] using h2
      rw [List.getElem_set]
      by_cases hik : k = i
      · subst hik
        simp [mergeRow, hcell, List.getD_eq_getElem?_getD, List.getElem?_eq_getElem hi]
      · have : i < k + 1 ↔ i < k := by omega
        simp [mergeRow, hik, this]

theorem widthPass_eq (width : Str → Int) (container : List (List Str)) :
    widthPass width container = some (columnWidths width container) := by
  induction container using List.reverseRecOn with
  | nil => simp [widthPass, columnWidths, columnCount]
  | append_singleton l row ih =>
    unfold widthPass at ih ⊢
    rw [List.foldlM_append, ih]
    simp only [Option.bind_eq_bind, Option.some_bind, List.foldlM_cons, List.foldlM_nil,
      length_columnWidths]
    rw [widthRow_eq width row _ (by rw [length_resize]; exact le_max_right _ _)]
    simp only [Option.pure_def, Option.bind_some, Option.some.injEq]
    apply List.ext_getElem
    · simp [mergeRow, length_resize, length_columnWidths, columnCount_concat]
    · intro i h1 h2
      have hres : (resize (columnWidths width l) (max (columnCount l) row.length)).getD i 0
          = columnWidth width l i := by
        rw [getD_resize _ _ _ (by rw [length_columnWidths]; exact le_max_left _ _),
          getD_columnWidths]
      simp only [mergeRow, List.getElem_map, List.getElem_range, hres]
      simp [columnWidths, columnWidth_concat]

theorem formats_get (type : TableType) : formats[type.toNat]? = some (format type) := by
  cases type <;> rfl

theorem emitRow_eq (width : Str → Int) (f : TableFormat) (container : List (List Str))
    (str : Str) (r : Nat) (h : r < container.length) :
    emitRow width f (columnWidths width container) container str r =
      some (str ++ (if r = 0 then [] else separatorLine f (columnWidths width container)) ++
        dataLine width f (columnWidths width container) container[r]) := by
  have hrow : container[r]? = some container[r] := List.getElem?_eq_getElem h
  have hlen : container[r].length ≤ (columnWidths width container).length := by
    rw [length_columnWidths]
    exact length_le_columnCount container _ (List.getElem_mem h)
  unfold emitRow
  by_cases h0 : r = 0
  · subst h0
    simp [hrow]
    exact dataRow_eq width f _ _ _ (by simpa using hlen)
  · simp only [hrow, h0, rowSeparator_eq, Option.bind_eq_bind, Option.some_bind, ne_eq,
      not_false_eq_true, if_true, if_false]
    rw [dataRow_eq width f _ _ _ hlen]
    simp [separatorLine, borderLine]

theorem create_eq_render (width : Str → Int) (container : List (List Str))
    (type : TableType) :
    create width container type = some (render width container (format type)) := by
  unfold create
  simp only [widthPass_eq, formats_get, borderColumns_eq, Option.bind_eq_bind,
    Option.some_bind, Option.pure_def]
  rw [foldlM_range_eq (emitRow width (format type) (columnWidths width container) container)
    (fun k => topBorder (format type) (columnWidths width container) ++
      List.intercalate (separatorLine (format type) (columnWidths width container))
        ((container.take k).map
          (dataLine width (format type) (columnWidths width container))))
    container.length _ (by simp [intercalate_nil, topBorder, borderLine])]
  · simp [render, bottomBorder, borderLine]
  · intro k hk
    rw [emitRow_eq width (format type) container _ k hk]
    have hget : container[k]? = some container[k] := List.getElem?_eq_getElem hk
    simp only [List.take_succ, hget, Option.toList, List.map_append, List.map_cons,
      List.map_nil, intercalate_concat]
    cases k with
    | zero => simp [intercalate_nil]
    | succ k =>
      have hne : container ≠ [] := by
        intro h
        simp [h] at hk
      simp [hne]

theorem foldl_max_bounds (xs : List Int) (a : Int) :
    a ≤ xs.foldl max a ∧ (∀ x ∈ xs, x ≤ xs.foldl max a) ∧
      (xs.foldl max a = a ∨ xs.foldl max a ∈ xs) := by
  induction xs generalizing a with
  | nil => simp
  | cons y ys ih =>
    obtain ⟨h1, h2, h3⟩ := ih (max a y)
    simp only [List.foldl_cons, List.mem_cons]
    refine ⟨le_trans (le_max_left a y) h1, ?_, ?_⟩
    · intro x hx
      rcases hx with rfl | hx
      · exact le_trans (le_max_right a x) h1
      · exact h2 x hx
    · rcases h3 with h3 | h3
      · rcases max_choice a y with h | h
        · left; rw [h3, h]
        · right; left; rw [h3, h]
      · right; right; exact h3

theorem foldl_max_nat_mem (xs : List Nat) (a : Nat) :
    xs.foldl max a = a ∨ xs.foldl max a ∈ xs := by
  induction xs generalizing a with
  | nil => simp
  | cons y ys ih =>
    simp only [List.foldl_cons, List.mem_cons]
    rcases ih (max a y) with h3 | h3
    · rcases max_choice a y with h | h
      · left; rw [h3, h]
      · right; left; rw [h3, h]
    · right; right; exact h3

theorem foldl_max_eq_foldr (xs : List Nat) (a : Nat) :
    xs.foldl max a = max a (xs.foldr max 0) := by
  induction xs generalizing a with
  | nil => simp
  | cons y ys ih => simp [ih, max_assoc]

theorem columnCount_eq_foldr (container : List (List Str)) :
    columnCount container = List.foldr max 0 (container.map List.length) := by
  simp [columnCount, foldl_max_eq_foldr]

theorem mem_columnCells (width : Str → Int) (container : List (List Str)) (i : Nat) (w : Int) :
    w ∈ (container.filterMap fun row => (row[i]?).map width) ↔
      ∃ row ∈ container, ∃ h : i < row.length, w = width row[i] := by
  simp only [List.mem_filterMap, Option.map_eq_some']
  constructor
  · rintro ⟨row, hrow, cell, hcell, rfl⟩
    obtain ⟨h, hc⟩ := List.getElem?_eq_some_iff.mp hcell
    exact ⟨row, hrow, h, by rw [hc]⟩
  · rintro ⟨row, hrow, h, rfl⟩
    exact ⟨row, hrow, row[i], List.getElem?_eq_getElem h, rfl⟩

theorem columnWidth_nonneg (width : Str → Int) (container : List (List Str)) (i : Nat) :
    0 ≤ columnWidth width container i :=
  (foldl_max_bounds _ 0).1

theorem width_le_columnWidth (width : Str → Int) (container : List (List Str))
    (row : List Str) (hrow : row ∈ container) (i : Nat) (h : i < row.length) :
    width row[i] ≤ columnWidth width container i :=
  (foldl_max_bounds _ 0).2.1 _ ((mem_columnCells width container i _).mpr ⟨row, hrow, h, rfl⟩)

theorem exists_row_of_lt_columnCount (container : List (List Str)) (i : Nat)
    (h : i < columnCount container) : ∃ row ∈ container, i < row.length := by
  rcases foldl_max_nat_mem (container.map List.length) 0 with h0 | hmem
  · unfold columnCount at h
    omega
  · obtain ⟨row, hrow, hlen⟩ := List.mem_map.mp hmem
    exact ⟨row, hrow, by unfold columnCount at h; omega⟩


theorem cellAt_of_lt (row : List Str) (i : Nat) (h : i < row.length) :
    cellAt row i = row[i] := by
  simp [cellAt, List.getD_eq_getElem?_getD, List.getElem?_eq_getElem h]

theorem cellAt_of_le (row : List Str) (i : Nat) (h : row.length ≤ i) :
    cellAt row i = [] := by
  simp [cellAt, List.getD_eq_getElem?_getD, List.getElem?_eq_none h]

theorem getD_columnWidths_eq_getElem (width : Str → Int) (container : List (List Str))
    (i : Nat) (h : i < (columnWidths width container).length) :
    (columnWidths width container).getD i 0 = (columnWidths width container)[i] := by
  simp [List.getD_eq_getElem?_getD, List.getElem?_eq_getElem h]

/-- The rendering depends on the width function only through its values on the
texts placed in the columns: the cells, and the empty text for absent cells. -/
theorem render_congr (w1 w2 : Str → Int) (container : List (List Str)) (f : TableFormat)
    (h : ∀ row ∈ container, ∀ i, i < columnCount container →
      w1 (cellAt row i) = w2 (cellAt row i)) :
    render w1 container f = render w2 container f := by
  have hcs : columnWidths w1 container = columnWidths w2 container := by
    unfold columnWidths
    apply List.map_congr_left
    intro i hi
    have hi2 : i < columnCount container := List.mem_range.mp hi
    unfold columnWidth
    congr 1
    apply List.filterMap_congr
    intro row hrow
    by_cases hlt : i < row.length
    · have := h row hrow i hi2
      rw [cellAt_of_lt row i hlt] at this
      simp [List.getElem?_eq_getElem hlt, this]
    · simp [List.getElem?_eq_none (Nat.le_of_not_lt hlt)]
  have hseg : ∀ row ∈ container, ∀ i ∈ List.range (columnWidths w2 container).length,
      segment w1 f (columnWidths w2 container) row i =
        segment w2 f (columnWidths w2 container) row i := by
    intro row hrow i hi
    have hi2 : i < columnCount container := by
      simpa [length_columnWidths] using List.mem_range.mp hi
    unfold segment
    rw [h row hrow i hi2]
  have hmap : container.map (dataLine w1 f (columnWidths w2 container)) =
      container.map (dataLine w2 f (columnWidths w2 container)) := by
    apply List.map_congr_left
    intro row hrow
    unfold dataLine
    rw [List.map_congr_left (hseg row hrow)]
  unfold render
  rw [hcs, hmap]


theorem rep_nil (n : Int) : rep [] n = [] := by
  simp [rep]

theorem intercalate_nil_sep {α : Type} (l : List (List α)) :
    List.intercalate [] l = l.flatten := by
  induction l with
  | nil => simp [List.intercalate]
  | cons a l ih =>
    cases l with
    | nil => simp [List.intercalate]
    | cons b l =>
      simp only [List.intercalate] at ih ⊢
      simp at ih
      simp [ih]

theorem flatten_eq_nil_of_forall {α : Type} (l : List (List α)) (h : ∀ x ∈ l, x = []) :
    l.flatten = [] := by
  induction l with
  | nil => rfl
  | cons a l ih =>
    simp [h a (List.mem_cons_self a l), ih (fun x hx => h x (List.mem_cons_of_mem a hx))]

theorem borderRuns_nil (cell_lengths : List Int) : borderRuns cell_lengths [] [] = [] := by
  unfold borderRuns
  rw [intercalate_nil_sep]
  apply flatten_eq_nil_of_forall
  intro x hx
  obtain ⟨c, _, rfl⟩ := List.mem_map.mp hx
  exact rep_nil _

theorem columnCount_eq_length_of_uniform (container : List (List Str))
    (huniform : ∀ r1 ∈ container, ∀ r2 ∈ container, r1.length = r2.length)
    (row : List Str) (hrow : row ∈ container) : columnCount container = row.length := by
  rcases foldl_max_nat_mem (container.map List.length) 0 with h0 | hmem
  · have := length_le_columnCount container row hrow
    unfold columnCount at this ⊢
    omega
  · obtain ⟨r2, hr2, hlen⟩ := List.mem_map.mp hmem
    unfold columnCount
    rw [← hlen]
    exact huniform r2 hr2 row hrow

theorem map_cellAt_range (row : List Str) :
    (List.range row.length).map (cellAt row) = row := by
  apply List.ext_getElem
  · simp
  · intro i h1 h2
    simp [cellAt_of_lt row i h2]

/-- A format without border glyphs and without padding, whose only glyph is the
vertical divider between columns, renders a grid of rows of equal length as its
rows, the cells joined by the divider and every row ended by a line feed. -/
theorem render_divider_only (width : Str → Int) (container : List (List Str)) (divider : Str)
    (huniform : ∀ r1 ∈ container, ∀ r2 ∈ container, r1.length = r2.length) :
    render width container
        (TableFormat.mk [] [] [] [] [] [] divider [] [] [] [] [] [] [] [] [] []) =
      (container.map fun row => List.intercalate divider row ++ lit "\n").flatten := by
  unfold render topBorder separatorLine bottomBorder borderLine
  simp only [borderRuns_nil, List.append_nil, List.nil_append, intercalate_nil_sep]
  congr 1
  apply List.map_congr_left
  intro row hrow
  unfold dataLine
  simp only [List.append_nil, List.nil_append, length_columnWidths,
    columnCount_eq_length_of_uniform container huniform row hrow]
  have hseg : ∀ i ∈ List.range row.length,
      segment width (TableFormat.mk [] [] [] [] [] [] divider [] [] [] [] [] [] [] [] [] [])
        (columnWidths width container) row i = cellAt row i := by
    intro i _
    simp [segment, rep_nil]
  rw [List.map_congr_left hseg, map_cellAt_range]


/-! ## Counting bytes in the rendered text -/

theorem intercalate_cons_cons {α : Type} (sep a b : List α) (l : List (List α)) :
    List.intercalate sep (a :: b :: l) = a ++ sep ++ List.intercalate sep (b :: l) := by
  simp [List.intercalate]

theorem intercalate_singleton {α : Type} (sep a : List α) :
    List.intercalate sep [a] = a := by
  simp [List.intercalate]

theorem countP_intercalate {α : Type} (p : α → Bool) (sep : List α) (l : List (List α)) :
    List.countP p (List.intercalate sep l) =
      (l.map (List.countP p)).sum + (l.length - 1) * List.countP p sep := by
  induction l with
  | nil => simp [intercalate_nil]
  | cons a l ih =>
    cases l with
    | nil => simp [intercalate_singleton]
    | cons b l =>
      rw [intercalate_cons_cons, List.countP_append, List.countP_append, ih]
      simp only [List.map_cons, List.sum_cons, List.length_cons, Nat.add_sub_cancel]
      ring

theorem countP_rep (p : UInt8 → Bool) (glyph : Str) (n : Int) :
    List.countP p (rep glyph n) = n.toNat * List.countP p glyph := by
  simp [rep, List.countP_flatten, List.sum_replicate]

theorem sum_map_eq_of_forall {α : Type} (l : List α) (g : α → Nat) (k : Nat)
    (h : ∀ x ∈ l, g x = k) : (l.map g).sum = l.length * k := by
  induction l with
  | nil => simp
  | cons a l ih =>
    simp only [List.map_cons, List.sum_cons, List.length_cons]
    rw [h a (List.mem_cons_self a l), ih (fun x hx => h x (List.mem_cons_of_mem a hx))]
    ring

theorem countP_borderRuns (p : UInt8 → Bool) (cell_lengths : List Int)
    (middle horizontal : Str) :
    List.countP p (borderRuns cell_lengths middle horizontal) =
      (cell_lengths.map fun c => (c + 2).toNat).sum * List.countP p horizontal +
        (cell_lengths.length - 1) * List.countP p middle := by
  unfold borderRuns
  rw [countP_intercalate, List.map_map, List.length_map]
  congr 1
  induction cell_lengths with
  | nil => simp
  | cons c cs ih =>
    simp only [List.map_cons, List.sum_cons, Function.comp_apply, countP_rep, ih]
    ring

theorem countP_borderLine (p : UInt8 → Bool) (left horizontal middle right newline : Str)
    (cell_lengths : List Int) :
    List.countP p (borderLine left horizontal middle right newline cell_lengths) =
      List.countP p left +
        ((cell_lengths.map fun c => (c + 2).toNat).sum * List.countP p horizontal +
          (cell_lengths.length - 1) * List.countP p middle) +
        List.countP p right + List.countP p newline := by
  simp only [borderLine, List.countP_append, countP_borderRuns]

theorem countP_segment (p : UInt8 → Bool) (width : Str → Int) (f : TableFormat)
    (cell_lengths : List Int) (row : List Str) (i : Nat) :
    List.countP p (segment width f cell_lengths row i) =
      List.countP p (cellAt row i) +
        (2 + (cell_lengths.getD i 0 - width (cellAt row i)).toNat) * List.countP p f.PADDING := by
  simp only [segment, List.countP_append, countP_rep]
  ring

theorem mem_glyphs_countP (p : UInt8 → Bool) (f : TableFormat)
    (h : ∀ g ∈ glyphs f, List.countP p g = 0) :
    List.countP p f.TOP_LEFT = 0 ∧ List.countP p f.TOP_HORIZONTAL = 0 ∧
    List.countP p f.TOP_MIDDLE = 0 ∧ List.countP p f.TOP_RIGHT = 0 ∧
    List.countP p f.LEFT_MIDDLE = 0 ∧ List.countP p f.LEFT_VERTICAL = 0 ∧
    List.countP p f.MIDDLE_VERTICAL = 0 ∧ List.countP p f.MIDDLE_HORIZONTAL = 0 ∧
    List.countP p f.MIDDLE_MIDDLE = 0 ∧ List.countP p f.RIGHT_MIDDLE = 0 ∧
    List.countP p f.RIGHT_VERTICAL = 0 ∧ List.countP p f.BOTTOM_LEFT = 0 ∧
    List.countP p f.BOTTOM_HORIZONTAL = 0 ∧ List.countP p f.BOTTOM_MIDDLE = 0 ∧
    List.countP p f.BOTTOM_RIGHT = 0 ∧ List.countP p f.NEWLINE = 0 ∧
    List.countP p f.PADDING = 0 := by
  simpa [glyphs] using h

theorem countP_cellAt (p : UInt8 → Bool) (row : List Str) (i : Nat)
    (h : ∀ cell ∈ row, List.countP p cell = 0) : List.countP p (cellAt row i) = 0 := by
  by_cases hi : i < row.length
  · rw [cellAt_of_lt row i hi]
    exact h _ (List.getElem_mem hi)
  · rw [cellAt_of_le row i (Nat.le_of_not_lt hi)]
    rfl

/-- In a format none of whose glyphs has a byte satisfying `p`, and for cells
without such a byte, the bytes of the rendering that satisfy `p` are those of
the line feeds that end the data lines. -/
theorem countP_render (p : UInt8 → Bool) (width : Str → Int) (container : List (List Str))
    (f : TableFormat) (hf : ∀ g ∈ glyphs f, List.countP p g = 0)
    (hcells : ∀ row ∈ container, ∀ cell ∈ row, List.countP p cell = 0) :
    List.countP p (render width container f) =
      container.length * List.countP p (lit "\n") := by
  obtain ⟨h1, h2, h3, h4, h5, h6, h7, h8, h9, h10, h11, h12, h13, h14, h15, h16, h17⟩ :=
    mem_glyphs_countP p f hf
  have hline : ∀ row ∈ container,
      List.countP p (dataLine width f (columnWidths width container) row) =
        List.countP p (lit "\n") := by
    intro row hrow
    unfold dataLine
    simp only [List.countP_append, countP_intercalate, List.map_map, h6, h7, h11]
    rw [sum_map_eq_of_forall _ _ 0]
    · simp
    · intro i _
      simp [countP_segment, h17, countP_cellAt p row i (hcells row hrow)]
  unfold render topBorder separatorLine bottomBorder
  simp only [List.countP_append, countP_intercalate, countP_borderLine, List.map_map,
    h1, h2, h3, h4, h5, h8, h9, h10, h12, h13, h14, h15, h16]
  rw [sum_map_eq_of_forall container _ (List.countP p (lit "\n"))]
  · simp
  · intro row hrow
    exact hline row hrow


/-! ## Lines of the ASCII rendering -/

theorem intercalate_lines {α : Type} (sep nl : List α) (l : List (List α)) :
    List.intercalate (sep ++ nl) (l.map fun x => x ++ nl) =
      ((l.intersperse sep).map fun x => x ++ nl).flatten := by
  induction l with
  | nil => simp [intercalate_nil]
  | cons a l ih =>
    cases l with
    | nil => simp [intercalate_singleton]
    | cons b l =>
      simp only [List.map_cons] at ih ⊢
      rw [intercalate_cons_cons, ih]
      simp

theorem length_intersperse_eq {α : Type} (sep : α) (l : List α) :
    (l.intersperse sep).length = l.length + (l.length - 1) := by
  induction l with
  | nil => simp
  | cons a l ih =>
    cases l with
    | nil => simp
    | cons b l =>
      rw [List.intersperse_cons_cons, List.length_cons, List.length_cons, ih]
      simp only [List.length_cons]
      omega

theorem mem_intersperse_imp {α : Type} (sep x : α) (l : List α)
    (h : x ∈ l.intersperse sep) : x = sep ∨ x ∈ l := by
  induction l with
  | nil => simp at h
  | cons a l ih =>
    cases l with
    | nil => right; simpa using h
    | cons b l =>
      rw [List.intersperse_cons_cons] at h
      simp only [List.mem_cons] at h ih ⊢
      rcases h with h | h | h
      · right; left; exact h
      · left; exact h
      · rcases ih h with h | h
        · left; exact h
        · right; right; exact h

theorem map_getD_range (cs : List Int) (g : Int → Nat) :
    (List.range cs.length).map (fun i => g (cs.getD i 0)) = cs.map g := by
  apply List.ext_getElem
  · simp
  · intro i h1 h2
    have h3 : i < cs.length := by simpa using h2
    simp [List.getD_eq_getElem?_getD, List.getElem?_eq_getElem h3]

theorem sum_toNat_add_two (cs : List Int) (h : ∀ c ∈ cs, 0 ≤ c) :
    (((cs.map fun c => (c + 2).toNat).sum : Nat) : Int) = (cs.map fun c => c + 2).sum := by
  induction cs with
  | nil => simp
  | cons c cs ih =>
    have hc : 0 ≤ c := h c (List.mem_cons_self c cs)
    simp only [List.map_cons, List.sum_cons, Nat.cast_add,
      ih (fun x hx => h x (List.mem_cons_of_mem c hx))]
    rw [Int.toNat_of_nonneg (by omega)]

theorem length_eq_countP (s : Str) : s.length = List.countP (fun _ => true) s := by
  rw [List.countP_true]

theorem mem_columnWidths_nonneg (width : Str → Int) (container : List (List Str)) :
    ∀ c ∈ columnWidths width container, 0 ≤ c := by
  intro c hc
  obtain ⟨i, _, rfl⟩ := List.mem_map.mp hc
  exact columnWidth_nonneg width container i

/-- Byte length of the segment of column `i` when the width of its text is the
byte length of the text. -/
theorem length_segment_ascii (width : Str → Int) (container : List (List Str))
    (row : List Str) (hrow : row ∈ container) (i : Nat)
    (hw : width (cellAt row i) = ((cellAt row i).length : Int)) :
    (segment width ascii_format (columnWidths width container) row i).length =
      ((columnWidths width container).getD i 0 + 2).toNat := by
  have hpad : List.countP (fun _ => true) ascii_format.PADDING = 1 := by decide
  rw [length_eq_countP, countP_segment, hpad, ← length_eq_countP, getD_columnWidths]
  have hle : width (cellAt row i) ≤ columnWidth width container i := by
    by_cases hi : i < row.length
    · rw [cellAt_of_lt row i hi]
      exact width_le_columnWidth width container row hrow i hi
    · rw [hw, cellAt_of_le row i (Nat.le_of_not_lt hi)]
      exact columnWidth_nonneg width container i
  omega


/-- Byte length and line feeds of an ASCII border line without its newline. -/
theorem ascii_border_text (cs : List Int) (hcs : ∀ c ∈ cs, 0 ≤ c) :
    (10 : UInt8) ∉ lit "+" ++ borderRuns cs (lit "+") (lit "-") ++ lit "+" ∧
      (((lit "+" ++ borderRuns cs (lit "+") (lit "-") ++ lit "+").length : Nat) : Int) =
        2 + (cs.map fun c => c + 2).sum + ((cs.length - 1 : Nat) : Int) := by
  constructor
  · rw [← List.count_eq_zero]
    have e1 : List.countP (fun b => b == (10 : UInt8)) (lit "+") = 0 := by decide
    have e2 : List.countP (fun b => b == (10 : UInt8)) (lit "-") = 0 := by decide
    unfold List.count
    simp only [List.countP_append, countP_borderRuns, e1, e2]
    simp
  · have e1 : List.countP (fun _ => true) (lit "+") = 1 := by decide
    have e2 : List.countP (fun _ => true) (lit "-") = 1 := by decide
    rw [length_eq_countP]
    simp only [List.countP_append, countP_borderRuns, e1, e2, Nat.mul_one]
    have hsum := sum_toNat_add_two cs hcs
    omega

/-- Byte length and line feeds of an ASCII data line without its line feed. -/
theorem ascii_data_text (width : Str → Int) (container : List (List Str))
    (hcells : ∀ row ∈ container, ∀ cell ∈ row,
      width cell = (cell.length : Int) ∧ (10 : UInt8) ∉ cell)
    (hempty : width [] = 0) (row : List Str) (hrow : row ∈ container) :
    (10 : UInt8) ∉ lit "|" ++ List.intercalate (lit "|")
        ((List.range (columnWidths width container).length).map
          (segment width ascii_format (columnWidths width container) row)) ++ lit "|" ∧
      (((lit "|" ++ List.intercalate (lit "|")
        ((List.range (columnWidths width container).length).map
          (segment width ascii_format (columnWidths width container) row)) ++ lit "|").length
          : Nat) : Int) =
        2 + ((columnWidths width container).map fun c => c + 2).sum +
          (((columnWidths width container).length - 1 : Nat) : Int) := by
  have hwidth : ∀ i, width (cellAt row i) = ((cellAt row i).length : Int) := by
    intro i
    by_cases hi : i < row.length
    · rw [cellAt_of_lt row i hi]
      exact (hcells row hrow _ (List.getElem_mem hi)).1
    · rw [cellAt_of_le row i (Nat.le_of_not_lt hi), hempty]
      rfl
  constructor
  · rw [← List.count_eq_zero]
    have e1 : List.countP (fun b => b == (10 : UInt8)) (lit "|") = 0 := by decide
    have e2 : List.countP (fun b => b == (10 : UInt8)) ascii_format.PADDING = 0 := by decide
    have hc : ∀ cell ∈ row, List.countP (fun b => b == (10 : UInt8)) cell = 0 := by
      intro cell hcell
      exact List.count_eq_zero.mpr (hcells row hrow cell hcell).2
    unfold List.count
    simp only [List.countP_append, countP_intercalate, List.map_map, e1]
    rw [sum_map_eq_of_forall _ _ 0]
    · simp
    · intro i _
      simp [countP_segment, e2, countP_cellAt _ row i hc]
  · have e1 : List.countP (fun _ => true) (lit "|") = 1 := by decide
    have hseg : ∀ i ∈ List.range (columnWidths width container).length,
        (List.countP (fun _ => true) ∘
          segment width ascii_format (columnWidths width container) row) i =
        (fun i => ((columnWidths width container).getD i 0 + 2).toNat) i := by
      intro i _
      simp only [Function.comp_apply, ← length_eq_countP]
      exact length_segment_ascii width container row hrow i (hwidth i)
    rw [length_eq_countP]
    simp only [List.countP_append, countP_intercalate, List.map_map, e1, List.length_map,
      List.length_range, Nat.mul_one]
    rw [List.map_congr_left hseg,
      map_getD_range (columnWidths width container) (fun c => (c + 2).toNat)]
    have hsum := sum_toNat_add_two _ (mem_columnWidths_nonneg width container)
    omega


/-! ## End of the output -/

theorem render_ends_in_line_feed_of_bordered (width : Str → Int)
    (container : List (List Str)) (type : TableType)
    (h : type = TableType.ASCII ∨ type = TableType.UNICODE ∨ type = TableType.FANCY) :
    ∃ pre, render width container (format type) = pre ++ [10] := by
  have hnl : (format type).NEWLINE = [10] := by
    rcases h with rfl | rfl | rfl <;> decide
  refine ⟨topBorder (format type) (columnWidths width container) ++
    List.intercalate (separatorLine (format type) (columnWidths width container))
      (container.map (dataLine width (format type) (columnWidths width container))) ++
    ((format type).BOTTOM_LEFT ++
      borderRuns (columnWidths width container) (format type).BOTTOM_MIDDLE
        (format type).BOTTOM_HORIZONTAL ++ (format type).BOTTOM_RIGHT), ?_⟩
  simp only [render, bottomBorder, borderLine, hnl, List.append_assoc]

theorem bottomBorder_eq_nil_of_plain (type : TableType) (cs : List Int)
    (h : type = TableType.NONE ∨ type = TableType.TSV ∨ type = TableType.CSV) :
    bottomBorder (format type) cs = [] := by
  have hg : (format type).BOTTOM_LEFT = [] ∧ (format type).BOTTOM_HORIZONTAL = [] ∧
      (format type).BOTTOM_MIDDLE = [] ∧ (format type).BOTTOM_RIGHT = [] ∧
      (format type).NEWLINE = [] := by
    rcases h with rfl | rfl | rfl <;> decide
  obtain ⟨h1, h2, h3, h4, h5⟩ := hg
  simp [bottomBorder, borderLine, h1, h2, h3, h4, h5, borderRuns_nil]

theorem topBorder_eq_nil_of_plain (type : TableType) (cs : List Int)
    (h : type = TableType.NONE ∨ type = TableType.TSV ∨ type = TableType.CSV) :
    topBorder (format type) cs = [] := by
  have hg : (format type).TOP_LEFT = [] ∧ (format type).TOP_HORIZONTAL = [] ∧
      (format type).TOP_MIDDLE = [] ∧ (format type).TOP_RIGHT = [] ∧
      (format type).NEWLINE = [] := by
    rcases h with rfl | rfl | rfl <;> decide
  obtain ⟨h1, h2, h3, h4, h5⟩ := hg
  simp [topBorder, borderLine, h1, h2, h3, h4, h5, borderRuns_nil]

theorem separatorLine_eq_nil_of_plain (type : TableType) (cs : List Int)
    (h : type = TableType.NONE ∨ type = TableType.TSV ∨ type = TableType.CSV) :
    separatorLine (format type) cs = [] := by
  have hg : (format type).LEFT_MIDDLE = [] ∧ (format type).MIDDLE_HORIZONTAL = [] ∧
      (format type).MIDDLE_MIDDLE = [] ∧ (format type).RIGHT_MIDDLE = [] ∧
      (format type).NEWLINE = [] := by
    rcases h with rfl | rfl | rfl <;> decide
  obtain ⟨h1, h2, h3, h4, h5⟩ := hg
  simp [separatorLine, borderLine, h1, h2, h3, h4, h5, borderRuns_nil]

/-- In the styles without border glyphs the rendering is the sequence of the data
lines. -/
theorem render_plain (width : Str → Int) (container : List (List Str)) (type : TableType)
    (h : type = TableType.NONE ∨ type = TableType.TSV ∨ type = TableType.CSV) :
    render width container (format type) =
      (container.map (dataLine width (format type) (columnWidths width container))).flatten := by
  simp [render, topBorder_eq_nil_of_plain type _ h, bottomBorder_eq_nil_of_plain type _ h,
    separatorLine_eq_nil_of_plain type _ h, intercalate_nil_sep]

theorem render_ends_in_line_feed_of_rows (width : Str → Int)
    (container : List (List Str)) (type : TableType) (hne : container ≠ [])
    (h : type = TableType.NONE ∨ type = TableType.TSV ∨ type = TableType.CSV) :
    ∃ pre, render width container (format type) = pre ++ [10] := by
  rw [render_plain width container type h]
  obtain ⟨init, row, hc⟩ : ∃ init row, container = init ++ [row] :=
    ⟨container.dropLast, container.getLast hne, (List.dropLast_append_getLast hne).symm⟩
  have hnl : lit "\n" = [10] := by decide
  refine ⟨(init.map (dataLine width (format type) (columnWidths width container))).flatten ++
    ((format type).LEFT_VERTICAL ++
      List.intercalate (format type).MIDDLE_VERTICAL
        ((List.range (columnWidths width container).length).map
          (segment width (format type) (columnWidths width container) row)) ++
      (format type).RIGHT_VERTICAL), ?_⟩
  generalize columnWidths width container = cs
  rw [hc]
  simp only [List.map_append, List.map_cons, List.map_nil, List.flatten_append,
    List.flatten_cons, List.flatten_nil, List.append_nil, dataLine, hnl, List.append_assoc]


/-! ## `split_line` -/

theorem find_eq_none (line delim : Str) (h : find line delim = none) : ¬ delim <:+: line := by
  induction line with
  | nil =>
    unfold find at h
    by_cases hp : delim.isPrefixOf [] = true
    · simp [hp] at h
    · rw [List.infix_nil]
      intro hd
      exact hp (by rw [hd]; rfl)
  | cons c line ih =>
    unfold find at h
    by_cases hp : delim.isPrefixOf (c :: line) = true
    · simp [hp] at h
    · simp only [hp, Bool.false_eq_true, if_false, Option.map_eq_none'] at h
      rw [List.infix_cons_iff]
      rintro (hpre | hinf)
      · exact hp (List.isPrefixOf_iff_prefix.mpr hpre)
      · exact ih h hinf

theorem find_eq_some (line delim : Str) (pos : Nat) (hd : delim ≠ [])
    (h : find line delim = some pos) :
    line = line.take pos ++ delim ++ line.drop (pos + delim.length) ∧
      ¬ delim <:+: line.take pos := by
  induction line generalizing pos with
  | nil =>
    unfold find at h
    by_cases hp : delim.isPrefixOf [] = true
    · exact absurd (List.prefix_nil.mp (List.isPrefixOf_iff_prefix.mp hp)) hd
    · simp [hp] at h
  | cons c line ih =>
    unfold find at h
    by_cases hp : delim.isPrefixOf (c :: line) = true
    · simp only [hp, if_true, Option.some.injEq] at h
      subst h
      have hpre := List.prefix_iff_eq_append.mp (List.isPrefixOf_iff_prefix.mp hp)
      refine ⟨?_, ?_⟩
      · simpa using hpre.symm
      · simpa [List.infix_nil] using hd
    · simp only [hp, Bool.false_eq_true, if_false, Option.map_eq_some'] at h
      obtain ⟨p, hfind, rfl⟩ := h
      obtain ⟨h1, h2⟩ := ih p hfind
      refine ⟨?_, ?_⟩
      · have : p + 1 + delim.length = (p + delim.length) + 1 := by omega
        rw [this, List.take_succ_cons, List.drop_succ_cons, List.cons_append, List.cons_append,
          ← h1]
      · rw [List.take_succ_cons, List.infix_cons_iff]
        rintro (hpre | hinf)
        · apply hp
          apply List.isPrefixOf_iff_prefix.mpr
          exact hpre.trans ((List.prefix_cons_inj c).mpr (List.take_prefix p line))
        · exact h2 hinf

theorem split_loop_none (delim : Str) (fuel : Nat) (line : Str) (rv : List Str) :
    split_loop delim fuel line none rv = some (line, rv) := by
  cases fuel <;> rfl

/-- The loop of `split_line` with enough iterations: it cuts the line into the
fields that precede the occurrences of the delimiter found from left to right
and leaves a rest without the delimiter. -/
theorem split_loop_spec (delim : Str) (hd : delim ≠ []) (fuel : Nat) (line : Str)
    (rv : List Str) (hfuel : line.length ≤ fuel) :
    ∃ fields rest, split_loop delim fuel line (find line delim) rv = some (rest, rv ++ fields) ∧
      line = (fields.map fun p => p ++ delim).flatten ++ rest ∧
      (∀ p ∈ fields, ¬ delim <:+: p) ∧ ¬ delim <:+: rest := by
  induction fuel generalizing line rv with
  | zero =>
    have hl : line = [] := List.length_eq_zero.mp (Nat.le_zero.mp hfuel)
    subst hl
    have hf : find [] delim = none := by
      unfold find
      have : ¬ delim.isPrefixOf [] = true := fun hp =>
        hd (List.prefix_nil.mp (List.isPrefixOf_iff_prefix.mp hp))
      simp [this]
    rw [hf, split_loop_none]
    exact ⟨[], [], by simp, by simp, by simp, by simpa [List.infix_nil] using hd⟩
  | succ fuel ih =>
    cases hf : find line delim with
    | none =>
      rw [split_loop_none]
      exact ⟨[], line, by simp, by simp, by simp, find_eq_none line delim hf⟩
    | some pos =>
      obtain ⟨h1, h2⟩ := find_eq_some line delim pos hd hf
      have hdl : 0 < delim.length := List.length_pos.mpr hd
      have hlen : (line.drop (pos + delim.length)).length ≤ fuel := by
        have := congrArg List.length h1
        simp only [List.length_append] at this
        omega
      obtain ⟨fields, rest, hloop, hline, hfields, hrest⟩ :=
        ih (line.drop (pos + delim.length)) (rv ++ [line.take pos]) hlen
      refine ⟨line.take pos :: fields, rest, ?_, ?_, ?_, hrest⟩
      · show split_loop delim fuel (line.drop (pos + delim.length))
          (find (line.drop (pos + delim.length)) delim) (rv ++ [line.take pos]) = _
        rw [hloop]
        simp
      · conv_lhs => rw [h1, hline]
        simp
      · intro p hp
        rcases List.mem_cons.mp hp with rfl | hp
        · exact h2
        · exact hfields p hp

theorem intercalate_append_singleton {α : Type} (sep : List α) (l : List (List α))
    (x : List α) :
    List.intercalate sep (l ++ [x]) = (l.map fun p => p ++ sep).flatten ++ x := by
  induction l with
  | nil => simp [intercalate_singleton]
  | cons a l ih =>
    cases l with
    | nil => simp [intercalate_cons_cons, intercalate_singleton]
    | cons b l =>
      rw [List.cons_append, List.cons_append, intercalate_cons_cons, ← List.cons_append, ih]
      simp

theorem intercalate_append_sep {α : Type} (sep : List α) (l : List (List α)) (h : l ≠ []) :
    List.intercalate sep l ++ sep = (l.map fun p => p ++ sep).flatten := by
  rw [← List.dropLast_append_getLast h, intercalate_append_singleton]
  simp


/-! ## Reading back the CSV output -/

theorem find_byte_none (d : UInt8) (c : Str) (h : d ∉ c) : find c [d] = none := by
  induction c with
  | nil => rfl
  | cons x c ih =>
    have hx : d ≠ x := fun e => h (by rw [e]; exact List.mem_cons_self x c)
    have hc : d ∉ c := fun e => h (List.mem_cons_of_mem x e)
    have hp : ¬ ([d] : Str).isPrefixOf (x :: c) = true := by
      simp [List.isPrefixOf, hx]
    unfold find
    simp only [hp, if_false, ih hc, Option.map_none', Bool.false_eq_true]

theorem find_byte_some (d : UInt8) (c rest : Str) (h : d ∉ c) :
    find (c ++ d :: rest) [d] = some c.length := by
  induction c with
  | nil =>
    have hp : ([d] : Str).isPrefixOf (d :: rest) = true := by
      simp [List.isPrefixOf]
    show find (d :: rest) [d] = some 0
    unfold find
    simp only [hp, if_true]
  | cons x c ih =>
    have hx : d ≠ x := fun e => h (by rw [e]; exact List.mem_cons_self x c)
    have hc : d ∉ c := fun e => h (List.mem_cons_of_mem x e)
    have hp : ¬ ([d] : Str).isPrefixOf (x :: (c ++ d :: rest)) = true := by
      simp [List.isPrefixOf, hx]
    rw [List.cons_append]
    unfold find
    simp only [hp, if_false, ih hc, Option.map_some', List.length_cons, Bool.false_eq_true]

theorem split_loop_intercalate (d : UInt8) (row : List Str) (c : Str)
    (hcells : ∀ cell ∈ c :: row, d ∉ cell) (fuel : Nat) (rv : List Str)
    (hfuel : (List.intercalate [d] (c :: row)).length ≤ fuel) :
    ∃ fields rest,
      split_loop [d] fuel (List.intercalate [d] (c :: row))
        (find (List.intercalate [d] (c :: row)) [d]) rv = some (rest, rv ++ fields) ∧
      fields ++ [rest] = c :: row := by
  induction row generalizing c fuel rv with
  | nil =>
    rw [intercalate_singleton, find_byte_none d c (hcells c (List.mem_cons_self c [])),
      split_loop_none]
    exact ⟨[], c, by simp, by simp⟩
  | cons b l ih =>
    have hc : d ∉ c := hcells c (List.mem_cons_self c _)
    have hline : List.intercalate [d] (c :: b :: l) = c ++ d :: List.intercalate [d] (b :: l) := by
      rw [intercalate_cons_cons]
      simp
    rw [hline] at hfuel ⊢
    rw [find_byte_some d c _ hc]
    cases fuel with
    | zero => simp at hfuel
    | succ fuel =>
      have hdrop : (c ++ d :: List.intercalate [d] (b :: l)).drop (c.length + ([d] : Str).length)
          = List.intercalate [d] (b :: l) := by
        have : c ++ d :: List.intercalate [d] (b :: l) =
            (c ++ [d]) ++ List.intercalate [d] (b :: l) := by simp
        rw [this]
        exact List.drop_left' (by simp)
      have htake : (c ++ d :: List.intercalate [d] (b :: l)).take c.length = c :=
        List.take_left c _
      have hlen : (List.intercalate [d] (b :: l)).length ≤ fuel := by
        simp only [List.length_append, List.length_cons] at hfuel
        omega
      obtain ⟨fields, rest, hloop, heq⟩ :=
        ih b (fun cell hcell => hcells cell (List.mem_cons_of_mem c hcell)) fuel (rv ++ [c]) hlen
      refine ⟨c :: fields, rest, ?_, by simp [heq]⟩
      show split_loop [d] fuel
        ((c ++ d :: List.intercalate [d] (b :: l)).drop (c.length + ([d] : Str).length))
        (find ((c ++ d :: List.intercalate [d] (b :: l)).drop (c.length + ([d] : Str).length))
          [d])
        (rv ++ [(c ++ d :: List.intercalate [d] (b :: l)).take c.length]) = _
      rw [hdrop, htake, hloop]
      simp

/-- Splitting the cells of a row joined by a one-byte delimiter gives back the
row, when no cell has the delimiter and the last cell is not empty. -/
theorem split_line_intercalate (d : UInt8) (row : List Str)
    (hcells : ∀ cell ∈ row, d ∉ cell) (hlast : row.getLast? ≠ some []) (fuel : Nat)
    (hfuel : (List.intercalate [d] row).length ≤ fuel) :
    split_line fuel (List.intercalate [d] row) [d] = some row := by
  cases row with
  | nil =>
    unfold split_line
    rw [intercalate_nil]
    have : find [] [d] = none := rfl
    rw [this, split_loop_none]
    rfl
  | cons c row =>
    obtain ⟨fields, rest, hloop, heq⟩ := split_loop_intercalate d row c hcells fuel [] hfuel
    have hrest : rest ≠ [] := by
      intro hr
      apply hlast
      rw [← heq, hr]
      simp
    unfold split_line
    rw [hloop]
    simp [hrest, heq]

theorem terminatedLinesFrom_cons (c : UInt8) (rest cur : Str) :
    terminatedLinesFrom (c :: rest) cur =
      if c = 10 then cur.reverse :: terminatedLinesFrom rest []
      else terminatedLinesFrom rest (c :: cur) := rfl

theorem terminatedLinesFrom_line (l rest cur : Str) (h : (10 : UInt8) ∉ l) :
    terminatedLinesFrom (l ++ 10 :: rest) cur =
      (cur.reverse ++ l) :: terminatedLinesFrom rest [] := by
  induction l generalizing cur with
  | nil => simp [terminatedLinesFrom_cons]
  | cons x l ih =>
    have hx : x ≠ 10 := fun e => h (by rw [e]; exact List.mem_cons_self 10 l)
    have hl : (10 : UInt8) ∉ l := fun e => h (List.mem_cons_of_mem x e)
    rw [List.cons_append, terminatedLinesFrom_cons, if_neg hx, ih _ hl]
    simp

theorem terminatedLines_flatten (ls : List Str) (h : ∀ l ∈ ls, (10 : UInt8) ∉ l) :
    terminatedLines (ls.map fun l => l ++ [10]).flatten = ls := by
  unfold terminatedLines
  induction ls with
  | nil => rfl
  | cons l ls ih =>
    simp only [List.map_cons, List.flatten_cons, List.append_assoc, List.singleton_append]
    rw [terminatedLinesFrom_line l _ [] (h l (List.mem_cons_self l ls)),
      ih (fun x hx => h x (List.mem_cons_of_mem l hx))]
    simp

theorem mem_intercalate_imp {α : Type} (sep : List α) (l : List (List α)) (x : α)
    (h : x ∈ List.intercalate sep l) : x ∈ sep ∨ ∃ s ∈ l, x ∈ s := by
  induction l with
  | nil => simp [intercalate_nil] at h
  | cons a l ih =>
    cases l with
    | nil =>
      rw [intercalate_singleton] at h
      exact Or.inr ⟨a, List.mem_cons_self a [], h⟩
    | cons b l =>
      rw [intercalate_cons_cons] at h
      simp only [List.mem_append] at h
      rcases h with (h | h) | h
      · exact Or.inr ⟨a, List.mem_cons_self a _, h⟩
      · exact Or.inl h
      · rcases ih h with h | ⟨s, hs, hx⟩
        · exact Or.inl h
        · exact Or.inr ⟨s, List.mem_cons_of_mem a hs, hx⟩


/-- The output of `create` in the CSV style for a grid whose rows have the same
number of cells. -/
theorem create_csv_of_uniform (width : Str → Int) (container : List (List Str))
    (huniform : ∀ r1 ∈ container, ∀ r2 ∈ container, r1.length = r2.length) :
    create width container TableType.CSV =
      some (container.map fun row => List.intercalate (lit ",") row ++ lit "\n").flatten := by
  have hcsv : format TableType.CSV =
      TableFormat.mk [] [] [] [] [] [] (lit ",") [] [] [] [] [] [] [] [] [] [] := rfl
  rw [create_eq_render, hcsv, render_divider_only width container _ huniform]

/-! ## The converter as state: when the width is a function of the text -/

theorem width_m_loc (lib : CLib) (c : UTF8Converter) (s : Str) :
    (UTF8Converter.width lib c s).2.m_loc = c.m_loc := by
  unfold UTF8Converter.width
  by_cases hv : c.valid = true
  · simp only [hv, if_true]
    cases lib.mbstowcs s (wresize c.m_buffer (max c.m_buffer.length
        (match lib.mbstowcs_count s with
          | some k => k + 1
          | none => 0))).length <;> rfl
  · simp [hv]

/-- A loop that carries the converter next to its state computes, in its first
component, what the loop without the converter computes, when every iteration
does so; the locale handle of the converter stays the same. -/
theorem foldlM_utf8_sim {X α : Type} (loc : Nat)
    (f : X × UTF8Converter → α → Option (X × UTF8Converter)) (g : X → α → Option X)
    (l : List α)
    (hstep : ∀ a ∈ l, ∀ x u, u.m_loc = loc →
      (f (x, u) a).map Prod.fst = g x a ∧ ∀ r, f (x, u) a = some r → r.2.m_loc = loc)
    (x : X) (u : UTF8Converter) (hu : u.m_loc = loc) :
    (l.foldlM f (x, u)).map Prod.fst = l.foldlM g x ∧
      ∀ r, l.foldlM f (x, u) = some r → r.2.m_loc = loc := by
  induction l generalizing x u with
  | nil =>
    refine ⟨rfl, ?_⟩
    intro r hr
    have : r = (x, u) := by simpa using hr.symm
    rw [this]
    exact hu
  | cons a l ih =>
    obtain ⟨h1, h2⟩ := hstep a (List.mem_cons_self a l) x u hu
    rw [List.foldlM_cons, List.foldlM_cons]
    cases hf : f (x, u) a with
    | none =>
      rw [hf] at h1
      simp only [Option.map_none'] at h1
      rw [← h1]
      simp
    | some r =>
      rw [hf] at h1
      simp only [Option.map_some'] at h1
      rw [← h1]
      simp only [Option.bind_eq_bind, Option.some_bind]
      exact ih (fun b hb => hstep b (List.mem_cons_of_mem a hb)) r.1 r.2 (h2 r hf)

theorem widthCell_utf8_sim (lib : CLib) (loc : Nat) (w : Str → Int) (row : List Str)
    (hpure : ∀ c : UTF8Converter, c.m_loc = loc → ∀ cell ∈ row,
      (UTF8Converter.width lib c cell).1 = w cell)
    (i : Nat) (cl : List Int) (u : UTF8Converter) (hu : u.m_loc = loc) :
    (widthCell_utf8 lib row (cl, u) i).map Prod.fst = widthCell w row cl i ∧
      ∀ r, widthCell_utf8 lib row (cl, u) i = some r → r.2.m_loc = loc := by
  unfold widthCell_utf8 widthCell
  cases hrow : row[i]? with
  | none => simp
  | some cell =>
    have hmem : cell ∈ row := by
      obtain ⟨h, hc⟩ := List.getElem?_eq_some_iff.mp hrow
      rw [← hc]
      exact List.getElem_mem h
    cases hc : cl[i]? with
    | none => simp
    | some c =>
      simp only [Option.bind_eq_bind, Option.some_bind, Option.pure_def, Option.map_some',
        hpure u hu cell hmem, Option.some.injEq, true_and]
      intro r hr
      rw [← hr]
      simp only [width_m_loc, hu]

theorem widthRow_utf8_sim (lib : CLib) (loc : Nat) (w : Str → Int) (row : List Str)
    (hpure : ∀ c : UTF8Converter, c.m_loc = loc → ∀ cell ∈ row,
      (UTF8Converter.width lib c cell).1 = w cell)
    (cl : List Int) (u : UTF8Converter) (hu : u.m_loc = loc) :
    (widthRow_utf8 lib row (cl, u)).map Prod.fst = widthRow w row cl ∧
      ∀ r, widthRow_utf8 lib row (cl, u) = some r → r.2.m_loc = loc :=
  foldlM_utf8_sim loc (widthCell_utf8 lib row) (widthCell w row) (List.range row.length)
    (fun i _ x v hv => widthCell_utf8_sim lib loc w row hpure i x v hv) cl u hu

theorem widthPass_utf8_sim (lib : CLib) (loc : Nat) (w : Str → Int)
    (container : List (List Str))
    (hpure : ∀ c : UTF8Converter, c.m_loc = loc → ∀ row ∈ container, ∀ cell ∈ row,
      (UTF8Converter.width lib c cell).1 = w cell)
    (u : UTF8Converter) (hu : u.m_loc = loc) :
    (widthPass_utf8 lib u container).map Prod.fst = widthPass w container ∧
      ∀ r, widthPass_utf8 lib u container = some r → r.2.m_loc = loc :=
  foldlM_utf8_sim loc
    (fun st row => widthRow_utf8 lib row (resize st.1 (max st.1.length row.length), st.2))
    (fun cell_lengths row =>
      widthRow w row (resize cell_lengths (max cell_lengths.length row.length)))
    container
    (fun row hrow _ v hv =>
      widthRow_utf8_sim lib loc w row (fun c hc cell hcell => hpure c hc row hrow cell hcell)
        _ v hv)
    [] u hu


theorem dataCell_utf8_sim (lib : CLib) (loc : Nat) (w : Str → Int) (f : TableFormat)
    (cell_lengths : List Int) (row : List Str)
    (hpure : ∀ c : UTF8Converter, c.m_loc = loc → ∀ i, i < cell_lengths.length →
      (UTF8Converter.width lib c (cellAt row i)).1 = w (cellAt row i))
    (i : Nat) (str : Str) (u : UTF8Converter) (hu : u.m_loc = loc) :
    (dataCell_utf8 lib f cell_lengths row (str, u) i).map Prod.fst =
        dataCell w f cell_lengths row str i ∧
      ∀ r, dataCell_utf8 lib f cell_lengths row (str, u) i = some r → r.2.m_loc = loc := by
  unfold dataCell_utf8 dataCell
  simp only [dataCell_val]
  cases hc : cell_lengths[i]? with
  | none => simp
  | some c =>
    have hi : i < cell_lengths.length := (List.getElem?_eq_some_iff.mp hc).1
    simp only [Option.bind_eq_bind, Option.some_bind, Option.pure_def, Option.map_some',
      hpure u hu i hi, Option.some.injEq, true_and]
    intro r hr
    rw [← hr]
    simp only [width_m_loc, hu]

theorem dataRow_utf8_sim (lib : CLib) (loc : Nat) (w : Str → Int) (f : TableFormat)
    (cell_lengths : List Int) (row : List Str)
    (hpure : ∀ c : UTF8Converter, c.m_loc = loc → ∀ i, i < cell_lengths.length →
      (UTF8Converter.width lib c (cellAt row i)).1 = w (cellAt row i))
    (str : Str) (u : UTF8Converter) (hu : u.m_loc = loc) :
    (dataRow_utf8 lib f cell_lengths row (str, u)).map Prod.fst =
        dataRow w f cell_lengths row str ∧
      ∀ r, dataRow_utf8 lib f cell_lengths row (str, u) = some r → r.2.m_loc = loc := by
  obtain ⟨h1, h2⟩ := foldlM_utf8_sim loc (dataCell_utf8 lib f cell_lengths row)
    (dataCell w f cell_lengths row) (List.range (max row.length cell_lengths.length))
    (fun i _ x v hv => dataCell_utf8_sim lib loc w f cell_lengths row hpure i x v hv)
    (str ++ f.LEFT_VERTICAL) u hu
  unfold dataRow_utf8 dataRow
  simp only []
  cases hf : List.foldlM (dataCell_utf8 lib f cell_lengths row) (str ++ f.LEFT_VERTICAL, u)
      (List.range (max row.length cell_lengths.length)) with
  | none =>
    rw [hf] at h1
    simp only [Option.map_none'] at h1
    rw [← h1]
    simp
  | some r =>
    rw [hf] at h1
    simp only [Option.map_some'] at h1
    rw [← h1]
    simp only [Option.bind_eq_bind, Option.some_bind, Option.pure_def, Option.map_some',
      true_and]
    intro r' hr'
    rw [← Option.some.inj hr']
    exact h2 r hf

theorem emitRow_utf8_sim (lib : CLib) (loc : Nat) (w : Str → Int) (f : TableFormat)
    (cell_lengths : List Int) (container : List (List Str))
    (hpure : ∀ c : UTF8Converter, c.m_loc = loc → ∀ row ∈ container, ∀ i,
      i < cell_lengths.length →
      (UTF8Converter.width lib c (cellAt row i)).1 = w (cellAt row i))
    (r : Nat) (str : Str) (u : UTF8Converter) (hu : u.m_loc = loc) :
    (emitRow_utf8 lib f cell_lengths container (str, u) r).map Prod.fst =
        emitRow w f cell_lengths container str r ∧
      ∀ s, emitRow_utf8 lib f cell_lengths container (str, u) r = some s → s.2.m_loc = loc := by
  unfold emitRow_utf8 emitRow
  cases hrow : container[r]? with
  | none => simp
  | some row =>
    have hmem : row ∈ container := by
      obtain ⟨h, hc⟩ := List.getElem?_eq_some_iff.mp hrow
      rw [← hc]
      exact List.getElem_mem h
    simp only [Option.bind_eq_bind, Option.some_bind]
    by_cases h0 : r = 0
    · simp only [h0, ne_eq, not_true_eq_false, if_false, Option.pure_def, Option.some_bind]
      exact dataRow_utf8_sim lib loc w f cell_lengths row
        (fun c hc i => hpure c hc row hmem i) str u hu
    · simp only [h0, ne_eq, not_false_eq_true, if_true, rowSeparator_eq, Option.some_bind]
      exact dataRow_utf8_sim lib loc w f cell_lengths row
        (fun c hc i => hpure c hc row hmem i) _ u hu


/-- The function `create` with its converter returns what `create` over the
width function `w` returns, when `utf8.width` gives the width `w` for every
text that `create` passes to it (the cells, and the empty text for a cell that
a row does not have), whatever the buffer of the converter holds. -/
theorem create_utf8_eq_create (lib : CLib) (newlocale : Nat) (w : Str → Int)
    (container : List (List Str)) (type : TableType)
    (hpure : ∀ c : UTF8Converter, c.m_loc = newlocale → ∀ row ∈ container, ∀ i,
      i < columnCount container →
      (UTF8Converter.width lib c (cellAt row i)).1 = w (cellAt row i)) :
    create_utf8 lib newlocale container type = create w container type := by
  have hcells : ∀ c : UTF8Converter, c.m_loc = newlocale → ∀ row ∈ container, ∀ cell ∈ row,
      (UTF8Converter.width lib c cell).1 = w cell := by
    intro c hc row hrow cell hcell
    obtain ⟨i, hi, rfl⟩ := List.getElem_of_mem hcell
    have := hpure c hc row hrow i (lt_of_lt_of_le hi (length_le_columnCount container row hrow))
    rwa [cellAt_of_lt row i hi] at this
  obtain ⟨hp1, hp2⟩ := widthPass_utf8_sim lib newlocale w container hcells
    (UTF8Converter.fresh newlocale) rfl
  rw [widthPass_eq] at hp1
  cases hpass : widthPass_utf8 lib (UTF8Converter.fresh newlocale) container with
  | none =>
    rw [hpass] at hp1
    simp at hp1
  | some pass =>
    rw [hpass] at hp1
    simp only [Option.map_some', Option.some.injEq] at hp1
    have hloc := hp2 pass hpass
    obtain ⟨hr1, hr2⟩ := foldlM_utf8_sim newlocale
      (emitRow_utf8 lib (format type) (columnWidths w container) container)
      (emitRow w (format type) (columnWidths w container) container)
      (List.range container.length)
      (fun r _ x v hv => emitRow_utf8_sim lib newlocale w (format type)
        (columnWidths w container) container
        (fun c hc row hrow i hi => hpure c hc row hrow i (by
          rwa [length_columnWidths] at hi)) r x v hv)
      ([] ++ (format type).TOP_LEFT ++
        borderRuns (columnWidths w container) (format type).TOP_MIDDLE
          (format type).TOP_HORIZONTAL ++ (format type).TOP_RIGHT ++ (format type).NEWLINE)
      pass.2 hloc
    unfold create_utf8 create
    simp only [hpass, widthPass_eq, formats_get, borderColumns_eq, Option.bind_eq_bind,
      Option.some_bind, Option.pure_def, hp1]
    cases hf : List.foldlM
        (emitRow_utf8 lib (format type) (columnWidths w container) container)
        ([] ++ (format type).TOP_LEFT ++
          borderRuns (columnWidths w container) (format type).TOP_MIDDLE
            (format type).TOP_HORIZONTAL ++ (format type).TOP_RIGHT ++ (format type).NEWLINE,
          pass.2)
        (List.range container.length) with
    | none =>
      rw [hf] at hr1
      simp only [Option.map_none'] at hr1
      rw [← hr1]
      rfl
    | some st =>
      rw [hf] at hr1
      simp only [Option.map_some'] at hr1
      rw [← hr1]
      rfl

/-- Layout of the data lines of `create` over a width function (the runs in which
`utf8.width` gives the same width for the same text in both passes): the
output of `create` is the header border, the data lines
of the rows with a row separator between consecutive rows, and the footer
border; the data line of a row is `LEFT_VERTICAL`, one segment per column joined
by `MIDDLE_VERTICAL`, `RIGHT_VERTICAL` and the line feed; for a cell present at
column `i` the segment is `PADDING`, the cell, `PADDING` and
`cell_lengths[i] - width(cell)` further copies of `PADDING`, a count that is not
negative.  For `[["日本"],["ab"]]` with widths 4 and 2 the cell `ab` is followed
by two additional padding glyphs. -/
theorem data_line_layout (width : Str → Int) (container : List (List Str))
    (type : TableType) :
    (∃ cs, widthPass width container = some cs ∧
      create width container type =
        some (topBorder (format type) cs ++
          List.intercalate (separatorLine (format type) cs)
            (container.map fun row =>
              (format type).LEFT_VERTICAL ++
                List.intercalate (format type).MIDDLE_VERTICAL
                  ((List.range cs.length).map (segment width (format type) cs row)) ++
                (format type).RIGHT_VERTICAL ++ lit "\n") ++
          bottomBorder (format type) cs) ∧
      ∀ row ∈ container, ∀ i (h : i < row.length), ∃ h2 : i < cs.length,
        0 ≤ cs[i] - width row[i] ∧
        segment width (format type) cs row i =
          (format type).PADDING ++ row[i] ++ (format type).PADDING ++
            (List.replicate (cs[i] - width row[i]).toNat (format type).PADDING).flatten) ∧
    (width (lit "日本") = 4 → width (lit "ab") = 2 →
      create width [[lit "日本"], [lit "ab"]] TableType.UNICODE =
        some (lit "┌──────┐\n│ 日本 │\n├──────┤\n│ ab   │\n└──────┘\n")) := by
  constructor
  · refine ⟨columnWidths width container, widthPass_eq width container, ?_, ?_⟩
    · rw [create_eq_render]
      rfl
    · intro row hrow i h
      have h2 : i < (columnWidths width container).length := by
        rw [length_columnWidths]
        exact lt_of_lt_of_le h (length_le_columnCount container row hrow)
      refine ⟨h2, ?_, ?_⟩
      · have h3 := width_le_columnWidth width container row hrow i h
        have h4 : (columnWidths width container)[i] = columnWidth width container i := by
          simp [columnWidths]
        rw [h4]
        omega
      · simp only [segment, rep, cellAt_of_lt row i h,
          getD_columnWidths_eq_getElem width container i h2]
  · intro h1 h2
    rw [create_eq_render,
      render_congr width (fun s => if s = lit "日本" then 4 else (s.length : Int))
        [[lit "日本"], [lit "ab"]] (format TableType.UNICODE) ?_,
      ← create_eq_render]
    · decide
    · intro row hrow i hi
      have hi0 : i = 0 := by
        have : columnCount [[lit "日本"], [lit "ab"]] = 1 := by decide
        omega
      subst hi0
      simp only [List.mem_cons, List.mem_singleton, List.not_mem_nil, or_false] at hrow
      rcases hrow with rfl | rfl
      · have : cellAt [lit "日本"] 0 = lit "日本" := rfl
        rw [this, h1]
        decide
      · have : cellAt [lit "ab"] 0 = lit "ab" := rfl
        rw [this, h2]
        decide

/-- An instance of `data_line_layout`: a width function that gives `日本` four columns and counts
bytes otherwise. -/
theorem data_line_layout_witness :
    create (fun s => if s = lit "日本" then 4 else (s.length : Int))
        [[lit "日本"], [lit "ab"]] TableType.UNICODE =
      some (lit "┌──────┐\n│ 日本 │\n├──────┤\n│ ab   │\n└──────┘\n") :=
  (data_line_layout (fun s => if s = lit "日本" then 4 else (s.length : Int))
    [[lit "日本"], [lit "ab"]] TableType.UNICODE).2 (by decide) (by decide)

/-! ## The claims -/

/-- C1 (column-width invariant): for a width function that is non-negative on the
cells of the grid, the vector built by the first pass of `create` has as many
entries as the longest row has cells (none for the empty grid), and entry `i`
is the greatest of the widths `width(row[i])` of the rows with more than `i` cells. -/
theorem column_widths_are_maxima (width : Str → Int) (container : List (List Str))
    (hw : ∀ row ∈ container, ∀ cell ∈ row, 0 ≤ width cell) :
    ∃ cs, widthPass width container = some cs ∧
      cs.length = List.foldr max 0 (container.map List.length) ∧
      ∀ i (hi : i < cs.length),
        IsGreatest {w | ∃ row ∈ container, ∃ h : i < row.length, w = width row[i]} cs[i] := by
  refine ⟨columnWidths width container, widthPass_eq width container, ?_, ?_⟩
  · rw [length_columnWidths, columnCount_eq_foldr]
  · intro i hi
    have hi2 : i < columnCount container := by simpa [length_columnWidths] using hi
    have hval : (columnWidths width container)[i] = columnWidth width container i := by
      simp [columnWidths]
    rw [hval]
    constructor
    · obtain ⟨_, hub, hmem⟩ :=
        foldl_max_bounds (container.filterMap fun row => (row[i]?).map width) 0
      rcases hmem with h0 | hmem
      · obtain ⟨row, hrow, hlt⟩ := exists_row_of_lt_columnCount container i hi2
        refine ⟨row, hrow, hlt, ?_⟩
        have h1 : width row[i] ≤ columnWidth width container i :=
          width_le_columnWidth width container row hrow i hlt
        have h2 : 0 ≤ width row[i] := hw row hrow _ (List.getElem_mem hlt)
        have h3 : columnWidth width container i = 0 := h0
        omega
      · exact (mem_columnCells width container i _).mp hmem
    · rintro w ⟨row, hrow, h, rfl⟩
      exact width_le_columnWidth width container row hrow i h

/-- Witness of C1 on the grid `[["a","bcd"],["xy"]]` with the byte length as width. -/
theorem column_widths_are_maxima_witness :
    (∀ row ∈ [[lit "a", lit "bcd"], [lit "xy"]], ∀ cell ∈ row, (0 : Int) ≤ (cell.length : Int)) ∧
    ∃ cs, widthPass (fun s => (s.length : Int)) [[lit "a", lit "bcd"], [lit "xy"]] = some cs ∧
      cs.length = List.foldr max 0 ([[lit "a", lit "bcd"], [lit "xy"]].map List.length) ∧
      ∀ i (hi : i < cs.length),
        IsGreatest {w | ∃ row ∈ [[lit "a", lit "bcd"], [lit "xy"]], ∃ h : i < row.length,
          w = ((row[i]).length : Int)} cs[i] :=
  ⟨fun _ _ cell _ => Int.ofNat_nonneg cell.length,
   column_widths_are_maxima (fun s => (s.length : Int)) [[lit "a", lit "bcd"], [lit "xy"]]
    (fun _ _ cell _ => Int.ofNat_nonneg cell.length)⟩

/-- C2 (the code at a failing input): the grid `[["\xff\xff\xff\xff\xff"],["abc"]]`
with a valid locale.  In the first pass the converter has an empty buffer when
it measures the five bytes `0xFF`, which are not well-formed, and returns the
width `0`; the cell `abc` then gives `cell_lengths[0] = 3` and leaves a buffer
of four wide characters.  In the second pass the same five bytes get the width
`5` (the fallback to the byte length), so `cell_lengths[0] - width(cell)` is
`3 - 5`, no further padding is emitted and the data line of the cell has nine
bytes between borders of seven: the column is narrower than the cell. -/
theorem create_utf8_column_narrower_than_cell :
    (widthPass_utf8 sevenBitLib (UTF8Converter.fresh 1)
        [[[255, 255, 255, 255, 255]], [lit "abc"]]).map Prod.fst = some [3] ∧
      (widthPass_utf8 sevenBitLib (UTF8Converter.fresh 1)
        [[[255, 255, 255, 255, 255]], [lit "abc"]]).map
          (fun pass => (UTF8Converter.width sevenBitLib pass.2 [255, 255, 255, 255, 255]).1)
        = some 5 ∧
      create_utf8 sevenBitLib 1 [[[255, 255, 255, 255, 255]], [lit "abc"]] TableType.ASCII =
        some (lit "+-----+\n" ++
              lit "| " ++ [255, 255, 255, 255, 255] ++ lit " |\n" ++
              lit "+-----+\n" ++
              lit "| abc |\n" ++
              lit "+-----+\n") := by
  decide

/-- C3 (header and footer borders): the output of `create` begins with
`TOP_LEFT`, the runs of `cell_lengths[i] + 2` copies of `TOP_HORIZONTAL`
separated by `TOP_MIDDLE`, `TOP_RIGHT` and the `NEWLINE` of the style, and ends
with the line built in the same way from the `BOTTOM_` glyphs.  The entries of
`cell_lengths` are not negative, so that `cell_lengths[i] + 2` is a count. -/
theorem output_has_header_and_footer (width : Str → Int) (container : List (List Str))
    (type : TableType) :
    ∃ cs body, widthPass width container = some cs ∧ (∀ c ∈ cs, 0 ≤ c) ∧
      create width container type =
        some (((format type).TOP_LEFT ++
            List.intercalate (format type).TOP_MIDDLE
              (cs.map fun c => (List.replicate (c + 2).toNat (format type).TOP_HORIZONTAL).flatten)
            ++ (format type).TOP_RIGHT ++ (format type).NEWLINE) ++
          body ++
          ((format type).BOTTOM_LEFT ++
            List.intercalate (format type).BOTTOM_MIDDLE
              (cs.map fun c =>
                (List.replicate (c + 2).toNat (format type).BOTTOM_HORIZONTAL).flatten)
            ++ (format type).BOTTOM_RIGHT ++ (format type).NEWLINE)) := by
  refine ⟨columnWidths width container,
    List.intercalate (separatorLine (format type) (columnWidths width container))
      (container.map (dataLine width (format type) (columnWidths width container))),
    widthPass_eq width container, ?_, ?_⟩
  · intro c hc
    obtain ⟨i, _, rfl⟩ := List.mem_map.mp hc
    exact columnWidth_nonneg width container i
  · rw [create_eq_render]
    rfl

/-- C4 (alignment in the ASCII style): when the width of every cell is its byte
length, no cell has a line feed and the empty text (which stands for an absent
cell) has width zero, the output of `create` in the ASCII style is a sequence
of lines, each ended by a line feed: the top border, the data lines with a row
separator between consecutive ones, the bottom border; and every line has the
same byte length `2 + sum (cell_lengths[i] + 2) + max(columns - 1, 0)`. -/
theorem ascii_lines_have_equal_length (width : Str → Int) (container : List (List Str))
    (hcells : ∀ row ∈ container, ∀ cell ∈ row,
      width cell = (cell.length : Int) ∧ (10 : UInt8) ∉ cell)
    (hempty : width [] = 0) :
    ∃ (cs : List Int) (lines : List Str), widthPass width container = some cs ∧
      create width container TableType.ASCII =
        some (lines.map fun line => line ++ lit "\n").flatten ∧
      lines.length = 2 + container.length + (container.length - 1) ∧
      ∀ line ∈ lines, (10 : UInt8) ∉ line ∧
        ((line.length : Nat) : Int) =
          2 + (cs.map fun c => c + 2).sum + ((cs.length - 1 : Nat) : Int) := by
  refine ⟨columnWidths width container,
    (lit "+" ++ borderRuns (columnWidths width container) (lit "+") (lit "-") ++ lit "+") ::
      (List.intersperse
        (lit "+" ++ borderRuns (columnWidths width container) (lit "+") (lit "-") ++ lit "+")
        (container.map fun row =>
          lit "|" ++ List.intercalate (lit "|")
            ((List.range (columnWidths width container).length).map
              (segment width ascii_format (columnWidths width container) row)) ++ lit "|") ++
      [lit "+" ++ borderRuns (columnWidths width container) (lit "+") (lit "-") ++ lit "+"]),
    widthPass_eq width container, ?_, ?_, ?_⟩
  · have key := intercalate_lines
      (lit "+" ++ borderRuns (columnWidths width container) (lit "+") (lit "-") ++ lit "+")
      (lit "\n")
      (container.map fun row =>
        lit "|" ++ List.intercalate (lit "|")
          ((List.range (columnWidths width container).length).map
            (segment width ascii_format (columnWidths width container) row)) ++ lit "|")
    rw [List.map_map] at key
    rw [create_eq_render]
    simp only [List.map_cons, List.map_append, List.map_nil, List.flatten_cons,
      List.flatten_append, List.flatten_nil, List.append_nil]
    rw [← key, ← List.append_assoc]
    rfl
  · simp only [List.length_cons, List.length_append, length_intersperse_eq, List.length_map,
      List.length_nil]
    omega
  · intro line hline
    simp only [List.mem_cons, List.mem_append, List.mem_singleton, List.not_mem_nil,
      or_false] at hline
    rcases hline with rfl | hline | rfl
    · exact ascii_border_text _ (mem_columnWidths_nonneg width container)
    · rcases mem_intersperse_imp _ _ _ hline with rfl | hmem
      · exact ascii_border_text _ (mem_columnWidths_nonneg width container)
      · obtain ⟨row, hrow, rfl⟩ := List.mem_map.mp hmem
        exact ascii_data_text width container hcells hempty row hrow
    · exact ascii_border_text _ (mem_columnWidths_nonneg width container)

/-- Witness of C4: the byte length as width on the ragged grid `[["ab","c"],["d"]]`. -/
theorem ascii_lines_have_equal_length_witness :
    ∃ (cs : List Int) (lines : List Str),
      widthPass (fun s => (s.length : Int)) [[lit "ab", lit "c"], [lit "d"]] = some cs ∧
      create (fun s => (s.length : Int)) [[lit "ab", lit "c"], [lit "d"]] TableType.ASCII =
        some (lines.map fun line => line ++ lit "\n").flatten ∧
      lines.length = 2 + [[lit "ab", lit "c"], [lit "d"]].length +
        ([[lit "ab", lit "c"], [lit "d"]].length - 1) ∧
      ∀ line ∈ lines, (10 : UInt8) ∉ line ∧
        ((line.length : Nat) : Int) =
          2 + (cs.map fun c => c + 2).sum + ((cs.length - 1 : Nat) : Int) :=
  ascii_lines_have_equal_length (fun s => (s.length : Int)) [[lit "ab", lit "c"], [lit "d"]]
    (by decide) rfl

/-- C5 (documented ASCII example): with a width function that counts the
characters of the four cells, `create` renders the grid of the documentation
comment of `TableType::ASCII` exactly as the comment shows it. -/
theorem ascii_documented_example (width : Str → Int)
    (h1 : width (lit "@@hostname") = 10) (h2 : width (lit "@@server_id") = 11)
    (h3 : width (lit "node-001") = 8) (h4 : width (lit "2") = 1) :
    create width [[lit "@@hostname", lit "@@server_id"], [lit "node-001", lit "2"]]
        TableType.ASCII =
      some (lit ("+------------+-------------+\n" ++
                 "| @@hostname | @@server_id |\n" ++
                 "+------------+-------------+\n" ++
                 "| node-001   | 2           |\n" ++
                 "+------------+-------------+\n")) := by
  rw [create_eq_render,
    render_congr width (fun s => (s.length : Int))
      [[lit "@@hostname", lit "@@server_id"], [lit "node-001", lit "2"]]
      (format TableType.ASCII) ?_,
    ← create_eq_render]
  · decide!
  · intro row hrow i hi
    have hc : columnCount [[lit "@@hostname", lit "@@server_id"], [lit "node-001", lit "2"]]
        = 2 := by decide
    rw [hc] at hi
    simp only [List.mem_cons, List.mem_singleton, List.not_mem_nil, or_false] at hrow
    have hi2 : i = 0 ∨ i = 1 := by omega
    rcases hrow with rfl | rfl <;> rcases hi2 with rfl | rfl
    · have : cellAt [lit "@@hostname", lit "@@server_id"] 0 = lit "@@hostname" := rfl
      rw [this, h1]; decide
    · have : cellAt [lit "@@hostname", lit "@@server_id"] 1 = lit "@@server_id" := rfl
      rw [this, h2]; decide
    · have : cellAt [lit "node-001", lit "2"] 0 = lit "node-001" := rfl
      rw [this, h3]; decide
    · have : cellAt [lit "node-001", lit "2"] 1 = lit "2" := rfl
      rw [this, h4]; decide

/-- Witness of C5: the byte length counts the characters of the four ASCII cells. -/
theorem ascii_documented_example_witness :
    create (fun s => (s.length : Int))
        [[lit "@@hostname", lit "@@server_id"], [lit "node-001", lit "2"]] TableType.ASCII =
      some (lit ("+------------+-------------+\n" ++
                 "| @@hostname | @@server_id |\n" ++
                 "+------------+-------------+\n" ++
                 "| node-001   | 2           |\n" ++
                 "+------------+-------------+\n")) :=
  ascii_documented_example (fun s => (s.length : Int)) (by decide) (by decide) (by decide)
    (by decide)

/-- C6 (separator styles): for a grid whose rows all have the same number of
cells and for any width function, `create` with the CSV style returns the rows
in order, the cells of a row joined by a comma and the row ended by a line feed,
with no border and no padding; the TSV style does the same with a tab.  The grid
`[["a","b"],["c","d"]]` gives `a,b\nc,d\n` and `a\tb\nc\td\n`. -/
theorem separator_styles_output (width : Str → Int) (container : List (List Str))
    (huniform : ∀ r1 ∈ container, ∀ r2 ∈ container, r1.length = r2.length) :
    create width container TableType.CSV =
        some (container.map fun row => List.intercalate (lit ",") row ++ lit "\n").flatten ∧
      create width container TableType.TSV =
        some (container.map fun row => List.intercalate (lit "\t") row ++ lit "\n").flatten ∧
      create width [[lit "a", lit "b"], [lit "c", lit "d"]] TableType.CSV =
        some (lit "a,b\nc,d\n") ∧
      create width [[lit "a", lit "b"], [lit "c", lit "d"]] TableType.TSV =
        some (lit "a\tb\nc\td\n") := by
  have hcsv : format TableType.CSV =
      TableFormat.mk [] [] [] [] [] [] (lit ",") [] [] [] [] [] [] [] [] [] [] := rfl
  have htsv : format TableType.TSV =
      TableFormat.mk [] [] [] [] [] [] (lit "\t") [] [] [] [] [] [] [] [] [] [] := rfl
  have h22 : ∀ r1 ∈ [[lit "a", lit "b"], [lit "c", lit "d"]],
      ∀ r2 ∈ [[lit "a", lit "b"], [lit "c", lit "d"]], r1.length = r2.length := by
    decide
  refine ⟨?_, ?_, ?_, ?_⟩
  · rw [create_eq_render, hcsv, render_divider_only width container _ huniform]
  · rw [create_eq_render, htsv, render_divider_only width container _ huniform]
  · rw [create_eq_render, hcsv, render_divider_only width _ _ h22]
    decide
  · rw [create_eq_render, htsv, render_divider_only width _ _ h22]
    decide

/-- Witness of C6 on the grid `[["x","yz"],["",""]]`, whose rows have two cells. -/
theorem separator_styles_output_witness :
    create (fun s => (s.length : Int)) [[lit "x", lit "yz"], [lit "", lit ""]] TableType.CSV =
      some (lit "x,yz\n,\n") :=
  ((separator_styles_output (fun s => (s.length : Int))
    [[lit "x", lit "yz"], [lit "", lit ""]] (by decide)).1).trans (by decide)

/-- C7 (hard newline invariant): in the output of `create` the data line of every
row is followed by the line feed byte `"\n"` of the source and not by the
`NEWLINE` glyph of the style; for the styles NONE, TSV and CSV and cells without
a line feed, the output has exactly one line feed per row of the grid. -/
theorem data_lines_end_in_line_feed (width : Str → Int) (container : List (List Str))
    (type : TableType) :
    lit "\n" = [10] ∧
    (∃ cs, widthPass width container = some cs ∧
      create width container type =
        some (topBorder (format type) cs ++
          List.intercalate (separatorLine (format type) cs)
            (container.map fun row =>
              ((format type).LEFT_VERTICAL ++
                List.intercalate (format type).MIDDLE_VERTICAL
                  ((List.range cs.length).map (segment width (format type) cs row)) ++
                (format type).RIGHT_VERTICAL) ++ lit "\n") ++
          bottomBorder (format type) cs)) ∧
    (type = TableType.NONE ∨ type = TableType.TSV ∨ type = TableType.CSV →
      (∀ row ∈ container, ∀ cell ∈ row, (10 : UInt8) ∉ cell) →
      ∃ out, create width container type = some out ∧ out.count 10 = container.length) := by
  refine ⟨by decide, ⟨columnWidths width container, widthPass_eq width container, ?_⟩, ?_⟩
  · rw [create_eq_render]
    rfl
  · intro htype hcells
    refine ⟨render width container (format type), create_eq_render width container type, ?_⟩
    have hf : ∀ g ∈ glyphs (format type), List.countP (fun b => b == 10) g = 0 := by
      rcases htype with rfl | rfl | rfl <;> decide
    have hc : ∀ row ∈ container, ∀ cell ∈ row, List.countP (fun b => b == 10) cell = 0 := by
      intro row hrow cell hcell
      exact List.count_eq_zero.mpr (hcells row hrow cell hcell)
    have := countP_render (fun b => b == 10) width container (format type) hf hc
    have hnl : List.countP (fun b => b == 10) (lit "\n") = 1 := by decide
    rw [hnl, Nat.mul_one] at this
    exact this

/-- Witness of C7: the NONE style on a grid of two rows. -/
theorem data_lines_end_in_line_feed_witness :
    ∃ out, create (fun s => (s.length : Int)) [[lit "a", lit "bc"], [lit "d"]] TableType.NONE
        = some out ∧
      out.count 10 = [[lit "a", lit "bc"], [lit "d"]].length :=
  (data_lines_end_in_line_feed (fun s => (s.length : Int)) [[lit "a", lit "bc"], [lit "d"]]
    TableType.NONE).2.2 (Or.inl rfl) (by decide)

/-- C8 (ragged-grid policy): `create` renders every grid; the data line of every
row has one segment for each of the columns of the grid (as many as the longest
row has cells), whatever the length of the row; when the empty text has width
zero, the segment of a column at which the row has no cell is `PADDING` twice
(around an empty text) and `cell_lengths[i]` further copies of `PADDING`.  The
grid `[["a","b","c"],["x"]]` is rendered in the ASCII style as a table of
three columns whose second data line is `| x |   |   |`. -/
theorem ragged_rows_fill_all_columns (width : Str → Int) (container : List (List Str))
    (type : TableType) :
    (∃ (cs : List Int) (segments : List Str → List Str), widthPass width container = some cs ∧
      cs.length = List.foldr max 0 (container.map List.length) ∧
      create width container type =
        some (topBorder (format type) cs ++
          List.intercalate (separatorLine (format type) cs)
            (container.map fun row =>
              (format type).LEFT_VERTICAL ++
                List.intercalate (format type).MIDDLE_VERTICAL (segments row) ++
                (format type).RIGHT_VERTICAL ++ lit "\n") ++
          bottomBorder (format type) cs) ∧
      ∀ row ∈ container, (segments row).length = cs.length ∧
        (width [] = 0 → ∀ i (h1 : i < cs.length) (h2 : i < (segments row).length),
          row.length ≤ i →
          0 ≤ cs[i] ∧
          (segments row)[i] =
            (format type).PADDING ++ [] ++ (format type).PADDING ++
              (List.replicate (cs[i]).toNat (format type).PADDING).flatten)) ∧
    (width (lit "a") = 1 → width (lit "b") = 1 → width (lit "c") = 1 → width (lit "x") = 1 →
      width (lit "") = 0 →
      create width [[lit "a", lit "b", lit "c"], [lit "x"]] TableType.ASCII =
        some (lit ("+---+---+---+\n" ++
                   "| a | b | c |\n" ++
                   "+---+---+---+\n" ++
                   "| x |   |   |\n" ++
                   "+---+---+---+\n"))) := by
  constructor
  · refine ⟨columnWidths width container,
      fun row => (List.range (columnWidths width container).length).map
        (segment width (format type) (columnWidths width container) row),
      widthPass_eq width container, ?_, ?_, ?_⟩
    · rw [length_columnWidths, columnCount_eq_foldr]
    · rw [create_eq_render]
      rfl
    · intro row _
      refine ⟨by simp, ?_⟩
      intro hw i h1 h2 hle
      have hval : (columnWidths width container)[i] = columnWidth width container i := by
        simp [columnWidths]
      refine ⟨by rw [hval]; exact columnWidth_nonneg width container i, ?_⟩
      simp only [List.getElem_map, List.getElem_range, segment, rep, cellAt_of_le row i hle,
        hw, getD_columnWidths_eq_getElem width container i h1, sub_zero]
  · intro ha hb hc hx he
    rw [create_eq_render,
      render_congr width (fun s => (s.length : Int))
        [[lit "a", lit "b", lit "c"], [lit "x"]] (format TableType.ASCII) ?_,
      ← create_eq_render]
    · decide!
    · intro row hrow i hi
      have hcnt : columnCount [[lit "a", lit "b", lit "c"], [lit "x"]] = 3 := by decide
      rw [hcnt] at hi
      simp only [List.mem_cons, List.mem_singleton, List.not_mem_nil, or_false] at hrow
      have hi3 : i = 0 ∨ i = 1 ∨ i = 2 := by omega
      rcases hrow with rfl | rfl <;> rcases hi3 with rfl | rfl | rfl
      · have : cellAt [lit "a", lit "b", lit "c"] 0 = lit "a" := rfl
        rw [this, ha]; decide
      · have : cellAt [lit "a", lit "b", lit "c"] 1 = lit "b" := rfl
        rw [this, hb]; decide
      · have : cellAt [lit "a", lit "b", lit "c"] 2 = lit "c" := rfl
        rw [this, hc]; decide
      · have : cellAt [lit "x"] 0 = lit "x" := rfl
        rw [this, hx]; decide
      · have : cellAt [lit "x"] 1 = lit "" := rfl
        rw [this, he]; decide
      · have : cellAt [lit "x"] 2 = lit "" := rfl
        rw [this, he]; decide

/-- Witness of C8: the byte length as width on the grid `[["a","b","c"],["x"]]`. -/
theorem ragged_rows_fill_all_columns_witness :
    create (fun s => (s.length : Int)) [[lit "a", lit "b", lit "c"], [lit "x"]]
        TableType.ASCII =
      some (lit ("+---+---+---+\n" ++
                 "| a | b | c |\n" ++
                 "+---+---+---+\n" ++
                 "| x |   |   |\n" ++
                 "+---+---+---+\n")) :=
  (ragged_rows_fill_all_columns (fun s => (s.length : Int))
    [[lit "a", lit "b", lit "c"], [lit "x"]] TableType.ASCII).2
    (by decide) (by decide) (by decide) (by decide) (by decide)

/-- C9 (degenerate grid): for every style, `create` applied to the empty grid
returns `TOP_LEFT`, `TOP_RIGHT`, `NEWLINE`, `BOTTOM_LEFT`, `BOTTOM_RIGHT`,
`NEWLINE` of that style and nothing else; for the ASCII style this is the text
of the two lines `++`. -/
theorem empty_grid_output (width : Str → Int) (type : TableType) :
    create width [] type =
        some ((format type).TOP_LEFT ++ (format type).TOP_RIGHT ++ (format type).NEWLINE ++
          (format type).BOTTOM_LEFT ++ (format type).BOTTOM_RIGHT ++ (format type).NEWLINE) ∧
      create width [] TableType.ASCII = some (lit "++\n++\n") := by
  have h : ∀ t, create width [] t =
      some ((format t).TOP_LEFT ++ (format t).TOP_RIGHT ++ (format t).NEWLINE ++
        (format t).BOTTOM_LEFT ++ (format t).BOTTOM_RIGHT ++ (format t).NEWLINE) := by
    intro t
    rw [create_eq_render]
    simp [render, columnWidths, columnCount, topBorder, bottomBorder, borderLine, borderRuns,
      intercalate_nil]
  refine ⟨h type, ?_⟩
  rw [h]
  decide

/-- C10 (border symmetry): in the output of `create` the top border, every row
separator and the bottom border are built alike from the glyphs of the style: a
left glyph, for each column `cell_lengths[i] + 2` horizontal glyphs, one joint
glyph between consecutive columns, a right glyph, the newline glyph.  The three
lines have the same number of code points, and so have they without their
corner glyphs: `sum (cell_lengths[i] + 2) + (columns - 1)` in the styles ASCII,
UNICODE and FANCY, whose glyphs are one code point each, and none in the styles
NONE, TSV and CSV, whose border glyphs are empty. -/
theorem border_lines_have_equal_glyph_counts (width : Str → Int)
    (container : List (List Str)) (type : TableType) :
    ∃ cs, widthPass width container = some cs ∧ (∀ c ∈ cs, 0 ≤ c) ∧
      (∀ left horizontal middle right newline : Str,
        borderRuns cs middle horizontal =
          List.intercalate middle
            (cs.map fun c => (List.replicate (c + 2).toNat horizontal).flatten) ∧
        borderLine left horizontal middle right newline cs =
          left ++ borderRuns cs middle horizontal ++ right ++ newline) ∧
      create width container type =
        some (borderLine (format type).TOP_LEFT (format type).TOP_HORIZONTAL
            (format type).TOP_MIDDLE (format type).TOP_RIGHT (format type).NEWLINE cs ++
          List.intercalate
            (borderLine (format type).LEFT_MIDDLE (format type).MIDDLE_HORIZONTAL
              (format type).MIDDLE_MIDDLE (format type).RIGHT_MIDDLE (format type).NEWLINE cs)
            (container.map (dataLine width (format type) cs)) ++
          borderLine (format type).BOTTOM_LEFT (format type).BOTTOM_HORIZONTAL
            (format type).BOTTOM_MIDDLE (format type).BOTTOM_RIGHT (format type).NEWLINE cs) ∧
      codePoints (borderLine (format type).TOP_LEFT (format type).TOP_HORIZONTAL
          (format type).TOP_MIDDLE (format type).TOP_RIGHT (format type).NEWLINE cs) =
        codePoints (borderLine (format type).LEFT_MIDDLE (format type).MIDDLE_HORIZONTAL
          (format type).MIDDLE_MIDDLE (format type).RIGHT_MIDDLE (format type).NEWLINE cs) ∧
      codePoints (borderLine (format type).BOTTOM_LEFT (format type).BOTTOM_HORIZONTAL
          (format type).BOTTOM_MIDDLE (format type).BOTTOM_RIGHT (format type).NEWLINE cs) =
        codePoints (borderLine (format type).LEFT_MIDDLE (format type).MIDDLE_HORIZONTAL
          (format type).MIDDLE_MIDDLE (format type).RIGHT_MIDDLE (format type).NEWLINE cs) ∧
      codePoints (borderRuns cs (format type).TOP_MIDDLE (format type).TOP_HORIZONTAL) =
        (if type = TableType.ASCII ∨ type = TableType.UNICODE ∨ type = TableType.FANCY
          then 1 else 0) * ((cs.map fun c => (c + 2).toNat).sum + (cs.length - 1)) ∧
      codePoints (borderRuns cs (format type).MIDDLE_MIDDLE (format type).MIDDLE_HORIZONTAL) =
        (if type = TableType.ASCII ∨ type = TableType.UNICODE ∨ type = TableType.FANCY
          then 1 else 0) * ((cs.map fun c => (c + 2).toNat).sum + (cs.length - 1)) ∧
      codePoints (borderRuns cs (format type).BOTTOM_MIDDLE (format type).BOTTOM_HORIZONTAL) =
        (if type = TableType.ASCII ∨ type = TableType.UNICODE ∨ type = TableType.FANCY
          then 1 else 0) * ((cs.map fun c => (c + 2).toNat).sum + (cs.length - 1)) := by
  have hk : ∀ t : TableType,
      codePoints (format t).TOP_HORIZONTAL =
        (if t = TableType.ASCII ∨ t = TableType.UNICODE ∨ t = TableType.FANCY then 1 else 0) ∧
      codePoints (format t).TOP_MIDDLE = codePoints (format t).TOP_HORIZONTAL ∧
      codePoints (format t).MIDDLE_HORIZONTAL = codePoints (format t).TOP_HORIZONTAL ∧
      codePoints (format t).MIDDLE_MIDDLE = codePoints (format t).TOP_HORIZONTAL ∧
      codePoints (format t).BOTTOM_HORIZONTAL = codePoints (format t).TOP_HORIZONTAL ∧
      codePoints (format t).BOTTOM_MIDDLE = codePoints (format t).TOP_HORIZONTAL ∧
      codePoints (format t).LEFT_MIDDLE = codePoints (format t).TOP_LEFT ∧
      codePoints (format t).BOTTOM_LEFT = codePoints (format t).TOP_LEFT ∧
      codePoints (format t).RIGHT_MIDDLE = codePoints (format t).TOP_RIGHT ∧
      codePoints (format t).BOTTOM_RIGHT = codePoints (format t).TOP_RIGHT := by
    intro t
    cases t <;> decide
  obtain ⟨k1, k2, k3, k4, k5, k6, k7, k8, k9, k10⟩ := hk type
  refine ⟨columnWidths width container, widthPass_eq width container,
    mem_columnWidths_nonneg width container, fun _ _ _ _ _ => ⟨rfl, rfl⟩, ?_, ?_, ?_, ?_, ?_, ?_⟩
  · rw [create_eq_render]
    rfl
  · unfold codePoints at *
    simp only [countP_borderLine, k2, k3, k4, k7, k9]
  · unfold codePoints at *
    simp only [countP_borderLine, k2, k3, k4, k5, k6, k7, k8, k9, k10]
  · unfold codePoints at *
    rw [countP_borderRuns, k2, k1]
    ring
  · unfold codePoints at *
    rw [countP_borderRuns, k3, k4, k1]
    ring
  · unfold codePoints at *
    rw [countP_borderRuns, k5, k6, k1]
    ring

/-- C11, as amended: when the grid has a row, or the style is ASCII, UNICODE or
FANCY, the text returned by `create` is not empty and its last byte is the line
feed; for the empty grid in the styles NONE, TSV and CSV, whose glyphs of the
borders and whose newline glyph are empty, `create` returns the empty text. -/
theorem output_ends_in_line_feed (width : Str → Int) (container : List (List Str))
    (type : TableType) :
    (container ≠ [] ∨ type = TableType.ASCII ∨ type = TableType.UNICODE ∨
        type = TableType.FANCY →
      ∃ out, create width container type = some out ∧ out ≠ [] ∧ out.getLast? = some 10) ∧
    (container = [] →
      type = TableType.NONE ∨ type = TableType.TSV ∨ type = TableType.CSV →
      create width container type = some []) := by
  constructor
  · intro h
    have hpre : ∃ pre, render width container (format type) = pre ++ [10] := by
      by_cases hb : type = TableType.ASCII ∨ type = TableType.UNICODE ∨ type = TableType.FANCY
      · exact render_ends_in_line_feed_of_bordered width container type hb
      · have hne : container ≠ [] := by
          rcases h with h | h
          · exact h
          · exact absurd h hb
        have hp : type = TableType.NONE ∨ type = TableType.TSV ∨ type = TableType.CSV := by
          cases type <;> simp at hb ⊢
        exact render_ends_in_line_feed_of_rows width container type hne hp
    obtain ⟨pre, hpre⟩ := hpre
    refine ⟨pre ++ [10], by rw [create_eq_render, hpre], by simp, by simp⟩
  · intro hc hp
    subst hc
    rw [create_eq_render, render_plain width [] type hp]
    rfl

/-- Witness of C11 as amended: the CSV style on a grid of one row. -/
theorem output_ends_in_line_feed_witness :
    ∃ out, create (fun s => (s.length : Int)) [[lit "a", lit "b"]] TableType.CSV = some out ∧
      out ≠ [] ∧ out.getLast? = some 10 :=
  (output_ends_in_line_feed (fun s => (s.length : Int)) [[lit "a", lit "b"]]
    TableType.CSV).1 (Or.inl (by decide))

/-- Counterexample to C11 as stated: for the empty grid in the NONE style the
text returned by `create` is empty, hence not ended by a line feed. -/
theorem output_ends_in_line_feed_counterexample :
    ¬ ∃ out, create (fun s => (s.length : Int)) [] TableType.NONE = some out ∧
      out ≠ [] ∧ out.getLast? = some 10 := by
  have h : create (fun s => (s.length : Int)) [] TableType.NONE = some [] := by decide
  rintro ⟨out, hout, hne, _⟩
  rw [h] at hout
  exact hne (Option.some.inj hout).symm

/-- C12, as amended: in the styles NONE, TSV and CSV the row separator that
`create` emits before every row but the first is the empty text: it has no
glyph and no line terminator (it ends with the `NEWLINE` glyph of the style,
which is empty), so the output is the sequence of the data lines, each ended by
its own line feed. -/
theorem plain_separator_is_empty (width : Str → Int) (container : List (List Str))
    (type : TableType)
    (h : type = TableType.NONE ∨ type = TableType.TSV ∨ type = TableType.CSV) :
    (∀ cs str, rowSeparator (format type) cs str = some str) ∧
    ∃ cs, widthPass width container = some cs ∧
      create width container type =
        some (container.map fun row =>
          (format type).LEFT_VERTICAL ++
            List.intercalate (format type).MIDDLE_VERTICAL
              ((List.range cs.length).map (segment width (format type) cs row)) ++
            (format type).RIGHT_VERTICAL ++ lit "\n").flatten := by
  constructor
  · intro cs str
    rw [rowSeparator_eq]
    have := separatorLine_eq_nil_of_plain type cs h
    simp only [separatorLine, borderLine] at this
    rw [this, List.append_nil]
  · refine ⟨columnWidths width container, widthPass_eq width container, ?_⟩
    rw [create_eq_render, render_plain width container type h]
    rfl

/-- Witness of C12 as amended: the CSV style on a grid of two rows. -/
theorem plain_separator_is_empty_witness :
    rowSeparator (format TableType.CSV) [1] (lit "a\n") = some (lit "a\n") :=
  (plain_separator_is_empty (fun s => (s.length : Int)) [[lit "a"], [lit "b"]]
    TableType.CSV (Or.inr (Or.inr rfl))).1 [1] (lit "a\n")

/-- Counterexample to C12 as stated: for the grid `[["a"],["b"]]` in the CSV
style the row separator emitted between the two data lines is empty, so it does
not end with a line feed, and the output `a\nb\n` has no line feed besides
those of the two data lines. -/
theorem plain_separator_is_empty_counterexample :
    (¬ ∃ pre, rowSeparator (format TableType.CSV) [1] [] = some (pre ++ lit "\n")) ∧
      create (fun s => (s.length : Int)) [[lit "a"], [lit "b"]] TableType.CSV =
        some (lit "a\nb\n") := by
  constructor
  · have h : rowSeparator (format TableType.CSV) [1] [] = some [] := by decide
    rintro ⟨pre, hpre⟩
    rw [h] at hpre
    have := congrArg List.length (Option.some.inj hpre)
    have hl : (lit "\n").length = 1 := by decide
    simp [hl] at this
  · decide

/-- C13 (the code at a failing input): when the locale is valid, `mbstowcs`
decodes the string and `wcswidth` reports `-1` for the decoded wide characters
(one of them is not printable), `UTF8Converter::width` returns that `-1`: the
value of `wcswidth` is returned as it is. -/
theorem width_returns_wcswidth_error (lib : CLib) (c : UTF8Converter) (str : Str)
    (ws : List Nat) (hvalid : c.valid = true)
    (hdecode : lib.mbstowcs str
      (wresize c.m_buffer (max c.m_buffer.length
        (match lib.mbstowcs_count str with
          | some k => k + 1
          | none => 0))).length = some ws)
    (hwidth : lib.wcswidth
      (wstore (wresize c.m_buffer (max c.m_buffer.length
        (match lib.mbstowcs_count str with
          | some k => k + 1
          | none => 0))) ws) ws.length = -1) :
    (UTF8Converter.width lib c str).1 = -1 := by
  unfold UTF8Converter.width
  simp only [hvalid, if_true, hdecode, hwidth]

/-- Witness of C13: the one-byte cell with the control character U+0001, on a
fresh converter with a valid locale. -/
theorem width_returns_wcswidth_error_witness :
    (UTF8Converter.width sevenBitLib (UTF8Converter.fresh 1) [1]).1 = -1 :=
  width_returns_wcswidth_error sevenBitLib (UTF8Converter.fresh 1) [1] [1]
    (by decide) (by decide) (by decide)

/-- C14 (the code at a failing input): `UTF8Converter::width` returns the byte
length when the locale is not valid, and when the call of `mbstowcs` that fills
the buffer returns `(size_t)-1`.  But when the string has an invalid sequence
(the call `mbstowcs(nullptr, ...)` returns `(size_t)-1`) and the buffer is
empty, as it is in a fresh converter, the buffer is resized to `0`, the second
call of `mbstowcs` stores no wide character and returns `0` without reaching
the invalid sequence, and `width` returns `wcswidth(buffer, 0)` in place of
the byte length. -/
theorem width_fallback_misses_small_buffer (lib : CLib) (c : UTF8Converter) (str : Str) :
    (c.valid = false → (UTF8Converter.width lib c str).1 = (str.length : Int)) ∧
    (lib.mbstowcs str
        (wresize c.m_buffer (max c.m_buffer.length
          (match lib.mbstowcs_count str with
            | some k => k + 1
            | none => 0))).length = none →
      (UTF8Converter.width lib c str).1 = (str.length : Int)) ∧
    (c.valid = true → c.m_buffer = [] → lib.mbstowcs_count str = none →
      lib.mbstowcs str 0 = some [] →
      (UTF8Converter.width lib c str).1 = lib.wcswidth [] 0) := by
  refine ⟨?_, ?_, ?_⟩
  · intro h
    simp [UTF8Converter.width, h]
  · intro h
    unfold UTF8Converter.width
    by_cases hv : c.valid = true
    · simp only [hv, if_true, h]
    · simp [hv]
  · intro hv hb hcount hconv
    unfold UTF8Converter.width
    have hsize : (wresize c.m_buffer (max c.m_buffer.length
        (match lib.mbstowcs_count str with
          | some k => k + 1
          | none => 0))) = [] := by
      rw [hb, hcount]
      rfl
    simp only [hv, if_true, hsize, List.length_nil, hconv]
    rfl

/-- Witness of C14: on a fresh converter with a valid locale the one-byte string
`0xFF`, which is not well-formed UTF-8, gets the width `0`; its byte length
is `1`. -/
theorem width_fallback_misses_small_buffer_witness :
    (UTF8Converter.width sevenBitLib (UTF8Converter.fresh 1) [0xFF]).1 = 0 ∧
      (([0xFF] : Str).length : Int) = 1 :=
  ⟨(width_fallback_misses_small_buffer sevenBitLib (UTF8Converter.fresh 1) [0xFF]).2.2
    (by decide) (by decide) (by decide) (by decide), by decide⟩

/-- C15, as amended: for each of the six styles the record held in `formats` is
the record of the glyph table of the specification, except that for ascii
top-mid is `+` and top-horiz is `-` (the table has them the other way round);
for none, tsv and csv every border glyph and the newline are empty, the
vertical divider is empty, a tab and a comma, and the padding is one space for
none and empty for tsv and csv. -/
theorem formats_match_glyph_table (type : TableType) :
    formats[type.toNat]? = some (amended_glyph_table type) ∧
    amended_glyph_table type =
      (if type = TableType.ASCII then
        TableFormat.mk (lit "+") (lit "-") (lit "+") (lit "+") (lit "+") (lit "|") (lit "|")
          (lit "-") (lit "+") (lit "+") (lit "|") (lit "+") (lit "-") (lit "+") (lit "+")
          (lit "\n") (lit " ")
      else spec_glyph_table type) ∧
    spec_glyph_table TableType.ASCII =
      TableFormat.mk (lit "+") (lit "+") (lit "-") (lit "+") (lit "+") (lit "|") (lit "|")
        (lit "-") (lit "+") (lit "+") (lit "|") (lit "+") (lit "-") (lit "+") (lit "+")
        (lit "\n") (lit " ") ∧
    formats[TableType.NONE.toNat]? =
      some (TableFormat.mk [] [] [] [] [] [] [] [] [] [] [] [] [] [] [] [] (lit " ")) ∧
    formats[TableType.TSV.toNat]? =
      some (TableFormat.mk [] [] [] [] [] [] (lit "\t") [] [] [] [] [] [] [] [] [] []) ∧
    formats[TableType.CSV.toNat]? =
      some (TableFormat.mk [] [] [] [] [] [] (lit ",") [] [] [] [] [] [] [] [] [] []) := by
  refine ⟨?_, ?_, by decide, by decide, by decide, by decide⟩
  · cases type <;> decide
  · cases type <;> decide

/-- Counterexample to C15 as stated: for ascii the registry holds `+` as
`TOP_MIDDLE` and `-` as `TOP_HORIZONTAL`, where the glyph table of the
specification has top-mid `-` and top-horiz `+`. -/
theorem formats_match_glyph_table_counterexample :
    formats[TableType.ASCII.toNat]? ≠ some (spec_glyph_table TableType.ASCII) ∧
      ascii_format.TOP_MIDDLE = lit "+" ∧
      (spec_glyph_table TableType.ASCII).TOP_MIDDLE = lit "-" ∧
      ascii_format.TOP_HORIZONTAL = lit "-" ∧
      (spec_glyph_table TableType.ASCII).TOP_HORIZONTAL = lit "+" := by
  decide

/-- C16 (the code at the failing input): with the byte length as width, which
counts the characters of these cells, `create` renders the grid of the
documentation comment of `TableType::NONE` with a padding space in front of
the first cell of every line, where the comment shows lines that start with
the text of the first cell. -/
theorem none_documented_example_output :
    create (fun s => (s.length : Int))
        [[lit "@@hostname", lit "@@server_id"], [lit "node-003", lit "4"]] TableType.NONE =
      some (lit (" @@hostname  @@server_id \n" ++
                 " node-003    4           \n")) := by
  decide!

/-- C17 (index safety): the first pass succeeds, and for the vector it returns
every row of the grid satisfies `row.size() <= cell_lengths.size()`, so the
bound `std::max(row.size(), cell_lengths.size())` of the column loop of a data
row is `cell_lengths.size()` and every index below it is in range; the loops of
the header, the row separators, the data rows and the footer, whose accesses
`cell_lengths[i]` give `none` when out of range, all return a result, and so
does `create`. -/
theorem cell_lengths_accesses_in_bounds (width : Str → Int) (container : List (List Str))
    (type : TableType) :
    ∃ cs, widthPass width container = some cs ∧
      (∀ row ∈ container, row.length ≤ cs.length ∧ max row.length cs.length = cs.length ∧
        (∀ i, i < max row.length cs.length → ∃ c, cs[i]? = some c) ∧
        ∀ str, ∃ out, dataRow width (format type) cs row str = some out) ∧
      (∀ middle horizontal str, ∃ out, borderColumns cs middle horizontal str = some out) ∧
      (∀ str, ∃ out, rowSeparator (format type) cs str = some out) ∧
      ∃ out, create width container type = some out := by
  refine ⟨columnWidths width container, widthPass_eq width container, ?_, ?_, ?_, ?_⟩
  · intro row hrow
    have hlen : row.length ≤ (columnWidths width container).length := by
      rw [length_columnWidths]
      exact length_le_columnCount container row hrow
    refine ⟨hlen, Nat.max_eq_right hlen, ?_, ?_⟩
    · intro i hi
      rw [Nat.max_eq_right hlen] at hi
      exact ⟨_, List.getElem?_eq_getElem hi⟩
    · intro str
      exact ⟨_, dataRow_eq width (format type) _ row str hlen⟩
  · intro middle horizontal str
    exact ⟨_, borderColumns_eq _ middle horizontal str⟩
  · intro str
    exact ⟨_, rowSeparator_eq (format type) _ str⟩
  · exact ⟨_, create_eq_render width container type⟩

/-- C18, as amended: for every line and every non-empty delimiter, `split_line`
returns (its loop ends within `line.size()` iterations) pieces none of which
contains the delimiter; joining the pieces with the delimiter gives the line,
or the line without one delimiter at its end; the empty line yields no piece;
the pieces are the fields that precede the occurrences of the delimiter found
from left to right, followed by the rest of the line only when the rest is not
empty; a field in front of a delimiter may be empty, also the last one. -/
theorem split_line_pieces (line delim : Str) (fuel : Nat) (hd : delim ≠ [])
    (hfuel : line.length ≤ fuel) :
    ∃ pieces, split_line fuel line delim = some pieces ∧
      (∀ p ∈ pieces, ¬ delim <:+: p) ∧
      (List.intercalate delim pieces = line ∨ List.intercalate delim pieces ++ delim = line) ∧
      (line = [] → pieces = []) ∧
      ∃ fields rest, pieces = fields ++ (if rest = [] then [] else [rest]) ∧
        line = (fields.map fun p => p ++ delim).flatten ++ rest ∧ ¬ delim <:+: rest := by
  obtain ⟨fields, rest, hloop, hline, hfields, hrest⟩ :=
    split_loop_spec delim hd fuel line [] hfuel
  have hsplit : split_line fuel line delim =
      some (fields ++ (if rest = [] then [] else [rest])) := by
    unfold split_line
    rw [hloop]
    by_cases hr : rest = []
    · simp [hr]
    · simp [hr]
  refine ⟨_, hsplit, ?_, ?_, ?_, fields, rest, rfl, hline, hrest⟩
  · intro p hp
    by_cases hr : rest = []
    · simp only [hr, if_true, List.append_nil] at hp
      exact hfields p hp
    · simp only [hr, if_false, List.mem_append, List.mem_singleton] at hp
      rcases hp with hp | rfl
      · exact hfields p hp
      · exact hrest
  · by_cases hr : rest = []
    · simp only [hr, if_true, List.append_nil] at hline ⊢
      by_cases hf : fields = []
      · left
        simp [hf, hline, intercalate_nil]
      · right
        rw [intercalate_append_sep delim fields hf, hline]
    · left
      simp only [hr, if_false]
      rw [intercalate_append_singleton, hline]
  · intro hl
    subst hl
    have h0 := congrArg List.length hline
    have hr : rest = [] := by
      apply List.length_eq_zero.mp
      simp only [List.length_nil, List.length_append] at h0
      omega
    have hf : fields = [] := by
      cases fields with
      | nil => rfl
      | cons a l =>
        have hdl : 0 < delim.length := List.length_pos.mpr hd
        simp only [List.length_nil, List.length_append, List.map_cons, List.flatten_cons] at h0
        omega
    simp [hr, hf]

/-- Witness of C18 as amended: the line `a b  c` split at the space. -/
theorem split_line_pieces_witness :
    ∃ pieces, split_line 6 (lit "a b  c") (lit " ") = some pieces ∧
      (∀ p ∈ pieces, ¬ lit " " <:+: p) ∧
      (List.intercalate (lit " ") pieces = lit "a b  c" ∨
        List.intercalate (lit " ") pieces ++ lit " " = lit "a b  c") ∧
      (lit "a b  c" = [] → pieces = []) ∧
      ∃ fields rest, pieces = fields ++ (if rest = [] then [] else [rest]) ∧
        lit "a b  c" = (fields.map fun p => p ++ lit " ").flatten ++ rest ∧
        ¬ lit " " <:+: rest :=
  split_line_pieces (lit "a b  c") (lit " ") 6 (by decide) (by decide)

/-- Counterexample to C18 as stated: the line `a,,` ends in the delimiter `,`
and `split_line` returns the pieces `a` and the empty text: the last piece is
empty. -/
theorem split_line_pieces_counterexample :
    lit "a,," = lit "a," ++ lit "," ∧
      split_line 3 (lit "a,,") (lit ",") = some [lit "a", []] ∧
      ([lit "a", []] : List Str).getLast? = some [] := by
  decide

/-- C19 (CSV round trip): for a grid whose rows have the same number of cells,
whose cells have neither a comma nor a line feed and in which the last cell of
every row is not empty, the lines of the output of `create` in the CSV style
are the rows with their cells joined by commas, and `split_line` with the
delimiter `,` (its loop given as many iterations as the line has bytes) gives
back the rows: the original grid. -/
theorem csv_round_trip (width : Str → Int) (container : List (List Str))
    (huniform : ∀ r1 ∈ container, ∀ r2 ∈ container, r1.length = r2.length)
    (hcells : ∀ row ∈ container, ∀ cell ∈ row, (44 : UInt8) ∉ cell ∧ (10 : UInt8) ∉ cell)
    (hlast : ∀ row ∈ container, row.getLast? ≠ some []) :
    lit "," = [44] ∧ lit "\n" = [10] ∧
    ∃ out, create width container TableType.CSV = some out ∧
      terminatedLines out = container.map (List.intercalate (lit ",")) ∧
      ∀ fuel, (∀ line ∈ terminatedLines out, line.length ≤ fuel) →
        (terminatedLines out).map (fun line => split_line fuel line (lit ",")) =
          container.map some := by
  have hcomma : lit "," = [44] := by decide
  have hnl : lit "\n" = [10] := by decide
  have hout := (create_csv_of_uniform width container huniform)
  have hlines : terminatedLines
      (container.map fun row => List.intercalate (lit ",") row ++ lit "\n").flatten =
      container.map (List.intercalate (lit ",")) := by
    have := terminatedLines_flatten (container.map (List.intercalate (lit ","))) (by
      intro l hl
      obtain ⟨row, hrow, rfl⟩ := List.mem_map.mp hl
      intro hmem
      rcases mem_intercalate_imp _ _ _ hmem with h | ⟨s, hs, hx⟩
      · rw [hcomma] at h
        simp at h
      · exact (hcells row hrow s hs).2 hx)
    rw [List.map_map] at this
    rw [hnl]
    exact this
  refine ⟨hcomma, hnl, _, hout, hlines, ?_⟩
  intro fuel hfuel
  rw [hlines] at hfuel ⊢
  rw [List.map_map]
  apply List.map_congr_left
  intro row hrow
  simp only [Function.comp_apply]
  have hf := hfuel _ (List.mem_map_of_mem _ hrow)
  rw [hcomma] at hf ⊢
  exact split_line_intercalate 44 row (fun cell hcell => (hcells row hrow cell hcell).1)
    (hlast row hrow) fuel hf

/-- Witness of C19: the grid `[["a","bc"],["","d"]]`. -/
theorem csv_round_trip_witness :
    ∃ out, create (fun s => (s.length : Int)) [[lit "a", lit "bc"], [lit "", lit "d"]]
        TableType.CSV = some out ∧
      terminatedLines out =
        [[lit "a", lit "bc"], [lit "", lit "d"]].map (List.intercalate (lit ",")) ∧
      ∀ fuel, (∀ line ∈ terminatedLines out, line.length ≤ fuel) →
        (terminatedLines out).map (fun line => split_line fuel line (lit ",")) =
          [[lit "a", lit "bc"], [lit "", lit "d"]].map some :=
  (csv_round_trip (fun s => (s.length : Int)) [[lit "a", lit "bc"], [lit "", lit "d"]]
    (by decide) (by decide) (by decide)).2.2

/-- C20 (`type_from_env`): when `TABLE_FORMAT` is set to one of the upper-case
names `ASCII`, `UNICODE`, `FANCY`, `NONE`, `TSV`, `CSV`, the type of that name
is returned; in every other case (variable not set, empty, lower-case `csv`,
any other value) the argument is returned unchanged. -/
theorem type_from_env_cases (env : Option Str) (type : TableType) :
    type_from_env (some (lit "ASCII")) type = TableType.ASCII ∧
    type_from_env (some (lit "UNICODE")) type = TableType.UNICODE ∧
    type_from_env (some (lit "FANCY")) type = TableType.FANCY ∧
    type_from_env (some (lit "NONE")) type = TableType.NONE ∧
    type_from_env (some (lit "TSV")) type = TableType.TSV ∧
    type_from_env (some (lit "CSV")) type = TableType.CSV ∧
    type_from_env none type = type ∧
    type_from_env (some (lit "")) type = type ∧
    type_from_env (some (lit "csv")) type = type ∧
    (env ∉ [some (lit "ASCII"), some (lit "UNICODE"), some (lit "FANCY"), some (lit "NONE"),
        some (lit "TSV"), some (lit "CSV")] →
      type_from_env env type = type) := by
  refine ⟨rfl, rfl, rfl, rfl, rfl, rfl, rfl, rfl, rfl, ?_⟩
  intro h
  simp only [List.mem_cons, List.mem_singleton, List.not_mem_nil, or_false, not_or] at h
  obtain ⟨h1, h2, h3, h4, h5, h6⟩ := h
  cases env with
  | none => rfl
  | some tt =>
    have e1 : tt ≠ lit "ASCII" := fun e => h1 (by rw [e])
    have e2 : tt ≠ lit "UNICODE" := fun e => h2 (by rw [e])
    have e3 : tt ≠ lit "FANCY" := fun e => h3 (by rw [e])
    have e4 : tt ≠ lit "NONE" := fun e => h4 (by rw [e])
    have e5 : tt ≠ lit "TSV" := fun e => h5 (by rw [e])
    have e6 : tt ≠ lit "CSV" := fun e => h6 (by rw [e])
    simp only [type_from_env, e1, e2, e3, e4, e5, e6, if_false]

/-- Witness of C20: the lower-case value `csv` leaves the type unchanged. -/
theorem type_from_env_cases_witness :
    type_from_env (some (lit "csv")) TableType.FANCY = TableType.FANCY :=
  (type_from_env_cases (some (lit "csv")) TableType.FANCY).2.2.2.2.2.2.2.2.2 (by decide)

end u8tbl
